import Mathlib

/-!
Verification of the seat/fare matrix computation and route-composition core of a
Bangladesh Railway seat-availability mobile client.

The definitions below are a shallow embedding of the JavaScript source:

* `src/utils/railwayAPI.js` — seat-type enumeration, per-pair seat-availability
  ingestion, seat-layout batching and the all-failed error synthesis.
* `src/unnamed/part_002` (the matrix calculator module) — halt-time cleaning,
  station-date resolution, route-pair enumeration, bounded-concurrency pool and
  fare-matrix assembly.
* `src/screens/MatrixResultsScreen.js` — the route-composition searches
  (`findDirectRoute`, `findSegmentedRoutes`, `findMixedSegmentedRoutes`).

Modelling conventions:

* JavaScript numbers are modelled as `ℕ` (seat counts, indices) and `ℤ`
  (fares, VAT, halt minutes).  Every arithmetic step the source performs on
  fares is a sum of parsed fares and small integer constants, which is exact
  and representation-independent on these values.
* JavaScript objects used as string-keyed dictionaries are modelled as functions
  `String → Option α` (a missing key is `none`), updated pointwise.
* Time strings such as `"10:05 am BST"` are modelled at the parsed level: a
  field is `absent` (missing/empty string), `unparseable` (present but the
  parse in the source throws), or `parsed t` with `t` the 12-hour clock value.
* Asynchronous code is modelled as the deterministic result-processing fold it
  performs, parameterised by the list of per-unit outcomes; the concurrency
  pool is modelled as a scheduler state machine whose completion order is an
  oracle parameter.
-/

namespace TrainSeatApp

/-- Seat types supported by Bangladesh Railway (railwayAPI.js, `SEAT_TYPES`). -/
def SEAT_TYPES : List String :=
  ["S_CHAIR", "SHOVAN", "SNIGDHA", "F_SEAT", "F_CHAIR",
   "AC_S", "F_BERTH", "AC_B", "SHULOV", "AC_CHAIR"]

/-- One cell of the fare matrix: online/offline seat counts, base fare and VAT.
`vat_amount` is `none` when the key is absent from the JS object (the
zero-filled cells written for failed matrix units carry no `vat_amount`). -/
structure FareCell where
  online : ℕ
  offline : ℕ
  fare : ℤ
  vat_amount : Option ℤ
deriving DecidableEq, Repr

/-- A clock time as parsed from a string `"H:MM am/pm"`; `pm = true` for "pm". -/
structure Time12 where
  hour : ℕ
  minute : ℕ
  pm : Bool
deriving DecidableEq, Repr

/-- 24-hour value of a 12-hour clock time, exactly as computed in the source
("pm" and hour ≠ 12 → +12; "am" and hour = 12 → 0). -/
def Time12.hour24 (t : Time12) : ℕ :=
  if t.pm then (if t.hour ≠ 12 then t.hour + 12 else t.hour)
  else (if t.hour = 12 then 0 else t.hour)

/-- Minutes from midnight (cleanHaltTimes uses this granularity). -/
def Time12.minutesOfDay (t : Time12) : ℕ := t.hour24 * 60 + t.minute

/-- Seconds from midnight (calculateStationDates uses this granularity). -/
def Time12.secondsOfDay (t : Time12) : ℕ := t.hour24 * 3600 + t.minute * 60

/-- A raw time field of a route stop, at the parsed level: `absent` models a
missing/empty string, `unparseable` a present string whose parse throws in the
source, `parsed t` a string `"H:MM am/pm BST"` parsing to `t`. -/
inductive TimeField where
  | absent : TimeField
  | unparseable : TimeField
  | parsed : Time12 → TimeField
deriving DecidableEq, Repr

/-- One stop of a train schedule (the fields of the route objects that the
matrix module reads and writes). `halt` is `none` when the field is falsy. -/
structure RouteStop where
  city : String
  arrival_time : TimeField
  departure_time : TimeField
  halt : Option ℤ
  display_date : Option String
deriving DecidableEq, Repr

/-- Halt recomputation of `cleanHaltTimes` for one stop (part_002 lines 51-108):
when arrival, departure and a declared halt are all present and parseable, the
halt is recomputed as departure-minutes − arrival-minutes (+24h when the
departure-of-day is earlier) and overwrites the declared value exactly when
that value is negative or exceeds 120; every other stop is left unchanged. -/
def cleanHaltStop (stop : RouteStop) : RouteStop :=
  match stop.arrival_time, stop.departure_time, stop.halt with
  | TimeField.parsed a, TimeField.parsed d, some h =>
    let arrivalMinutes := a.minutesOfDay
    let departureMinutes :=
      if d.minutesOfDay < arrivalMinutes then d.minutesOfDay + 24 * 60
      else d.minutesOfDay
    let haltMinutes : ℤ := (departureMinutes : ℤ) - (arrivalMinutes : ℤ)
    if h > 120 ∨ h < 0 then { stop with halt := some haltMinutes } else stop
  | _, _, _ => stop

/-- `cleanHaltTimes(routes)` updates each stop in place; functionally, a map. -/
def cleanHaltTimes (routes : List RouteStop) : List RouteStop :=
  routes.map cleanHaltStop

/-- A calendar date as the source tracks it: full year, 0-based month (as in
JavaScript `Date`), 1-based day of month. -/
structure SDate where
  year : ℕ
  month : ℕ
  day : ℕ
deriving DecidableEq, Repr

/-- Gregorian leap-year rule (what JavaScript `Date` normalisation uses). -/
def isLeapYear (y : ℕ) : Bool :=
  y % 4 = 0 && (y % 100 ≠ 0 || y % 400 = 0)

/-- Days in a 0-based month of a given year. -/
def daysInMonth (year month : ℕ) : ℕ :=
  if month = 1 then (if isLeapYear year then 29 else 28)
  else if month = 3 ∨ month = 5 ∨ month = 8 ∨ month = 10 then 30
  else 31

/-- The source advances the running date with
`currentDate.setDate(currentDate.getDate() + 1)`; JavaScript normalises the
overflowing day into the next month/year. -/
def addOneDay (d : SDate) : SDate :=
  if d.day < daysInMonth d.year d.month then { d with day := d.day + 1 }
  else if d.month < 11 then { year := d.year, month := d.month + 1, day := 1 }
  else { year := d.year + 1, month := 0, day := 1 }

/-- `String(n).padStart(2, '0')`. -/
def pad2 (n : ℕ) : String :=
  if n < 10 then "0" ++ toString n else toString n

/-- The hardcoded month-abbreviation table of the source. -/
def monthAbbr : List String :=
  ["Jan", "Feb", "Mar", "Apr", "May", "Jun",
   "Jul", "Aug", "Sep", "Oct", "Nov", "Dec"]

/-- `YYYY-MM-DD` format used for the resolved station dates
(part_002 line 198). -/
def formatYMD (d : SDate) : String :=
  toString d.year ++ "-" ++ pad2 (d.month + 1) ++ "-" ++ pad2 d.day

/-- `DD MMM` format used for the rollover display labels
(part_002 lines 160-179). -/
def formatDisplay (d : SDate) : String :=
  pad2 d.day ++ " " ++ (monthAbbr.getD d.month "")

/-- The time string calculateStationDates reads for a stop:
`stop.departure_time || stop.arrival_time`. -/
def RouteStop.timeField (stop : RouteStop) : TimeField :=
  match stop.departure_time with
  | TimeField.absent => stop.arrival_time
  | t => t

/-- Point update of a string-keyed dictionary. -/
def updateDict (dict : String → Option String) (key val : String) :
    String → Option String :=
  fun c => if c = key then some val else dict c

/-- The walk of `calculateStationDates` (part_002 lines 116-207) over the
remaining stops. State: the running calendar date, the previous parseable
time-of-day, the already-processed stops in reverse order (the JS loop writes
the rollover label onto `routes[i-1]`, which is the head of this accumulator)
and the station-date dictionary built so far.

For each stop the source first nulls `display_date`; a stop whose time string
is absent is stamped with the running date; one whose time fails to parse hits
`continue` and is *not* stamped; a parseable one is compared with the previous
parseable time-of-day, and when it is strictly earlier and the wrap-around gap
is under 12 hours the previous stop is labelled with the not-yet-advanced
running date, the date advances one day and the current stop is labelled with
the new date. Every non-`continue` stop is stamped with the running date. -/
def calcGo : List RouteStop → SDate → Option Time12 → List RouteStop →
    (String → Option String) → (List RouteStop × (String → Option String))
  | [], _, _, acc, dates => (acc.reverse, dates)
  | stop :: rest, cur, prev, acc, dates =>
    let stop0 := { stop with display_date := none }
    match stop0.timeField with
    | TimeField.absent =>
      calcGo rest cur prev (stop0 :: acc)
        (updateDict dates stop0.city (formatYMD cur))
    | TimeField.unparseable =>
      calcGo rest cur prev (stop0 :: acc) dates
    | TimeField.parsed t =>
      match prev with
      | none =>
        calcGo rest cur (some t) (stop0 :: acc)
          (updateDict dates stop0.city (formatYMD cur))
      | some p =>
        if t.secondsOfDay < p.secondsOfDay then
          -- next-day crossing detected; gap in hours = (t + 24h − p)/3600 < 12
          if t.secondsOfDay + 24 * 3600 - p.secondsOfDay < 12 * 3600 then
            let acc' :=
              match acc with
              | [] => acc
              | prevStop :: accRest =>
                { prevStop with display_date := some (formatDisplay cur) } ::
                  accRest
            let cur' := addOneDay cur
            let stop' := { stop0 with display_date := some (formatDisplay cur') }
            calcGo rest cur' (some t) (stop' :: acc')
              (updateDict dates stop'.city (formatYMD cur'))
          else
            calcGo rest cur (some t) (stop0 :: acc)
              (updateDict dates stop0.city (formatYMD cur))
        else
          calcGo rest cur (some t) (stop0 :: acc)
            (updateDict dates stop0.city (formatYMD cur))

/-- `calculateStationDates(routes, baseDate)`: returns the stops with their
display labels set and the city → resolved-date dictionary. -/
def calculateStationDates (routes : List RouteStop) (baseDate : SDate) :
    List RouteStop × (String → Option String) :=
  calcGo routes baseDate none [] (fun _ => none)

/-! ## Route composition (MatrixResultsScreen.js) -/

/-- The slice of the screen's `matrixData` that the route searches read:
the ordered station list, the per-class fare matrices (a missing key at any
level is `none`), the formatted per-station dates and the journey date. -/
structure MatrixData where
  stations : List String
  fareMatrices : String → String → String → Option FareCell
  stationDatesFormatted : String → Option String
  date : String

/-- One segment of a composed route, exactly the object literal built by the
three searches (base fare, VAT with `|| 0` defaulting, the fixed service
charge 20, their total, online+offline seats, origin-station date). -/
structure RouteSegment where
  from_city : String
  to_city : String
  seatType : String
  base : ℤ
  vat : ℤ
  charge : ℤ
  total : ℤ
  seats : ℕ
  date : String
deriving DecidableEq, Repr

/-- A composed route: `rtype` is "DIRECT" / "SEGMENTED" / "MIXED_SEGMENTED";
`seatType` is `none` for mixed routes (the JS object has no such field). -/
structure ComposedRoute where
  rtype : String
  seatType : Option String
  segments : List RouteSegment
  totalFare : ℤ
deriving DecidableEq, Repr

/-- The segment object built from a fare cell for edge `a → b`
(MatrixResultsScreen.js lines 240-249, 285-295, 339-349): base = `fare`,
vat = `vat_amount || 0`, charge = 20, total = their sum, seats =
online + offline, date = `stationDatesFormatted[a] || date`. -/
def mkSegment (md : MatrixData) (a b seatType : String) (cell : FareCell) :
    RouteSegment :=
  let base := cell.fare
  let vat := (cell.vat_amount.getD 0)
  let charge : ℤ := 20
  { from_city := a, to_city := b, seatType := seatType,
    base := base, vat := vat, charge := charge, total := base + vat + charge,
    seats := cell.online + cell.offline,
    date := (md.stationDatesFormatted a).getD md.date }

/-- `findDirectRoute(origin, destination, seatType)` (lines 225-255): `null`
when the cell is absent; otherwise a one-segment DIRECT route exactly when the
cell's online count is strictly positive. -/
def findDirectRoute (md : MatrixData) (origin destination seatType : String) :
    Option ComposedRoute :=
  match md.fareMatrices seatType origin destination with
  | none => none
  | some cell =>
    if 0 < cell.online then
      let seg := mkSegment md origin destination seatType cell
      some { rtype := "DIRECT", seatType := some seatType,
             segments := [seg], totalFare := seg.total }
    else none

/-- `stations.indexOf(s)` with JavaScript semantics: −1 when absent. -/
def jsIndexOf (stations : List String) (s : String) : ℤ :=
  if s ∈ stations then (stations.indexOf s : ℤ) else -1

/-- A BFS queue entry: `[currentStation, path, totalFare]`. -/
structure BfsEntry where
  station : String
  path : List RouteSegment
  fare : ℤ
deriving Repr

/-- The stations the single-class search pushes from `a`: every
`stations[i]` with `i > stations.indexOf(a)` whose cell for `seatType` has
`online > 0`, in index order (lines 276-298). -/
def segPushes (md : MatrixData) (seatType a : String) (e : BfsEntry) :
    List BfsEntry :=
  (List.range md.stations.length).filterMap fun (i : ℕ) =>
    if (i : ℤ) > jsIndexOf md.stations a then
      match md.stations.get? i with
      | none => none
      | some b =>
        match md.fareMatrices seatType a b with
        | none => none
        | some cell =>
          if 0 < cell.online then
            let seg := mkSegment md a b seatType cell
            some { station := b, path := e.path ++ [seg],
                   fare := e.fare + seg.total }
          else none
    else none

/-- Drop the already-visited entries from the front of the queue, returning
the first unvisited entry and the rest; the JS loop pops such entries one at a
time and `continue`s, which is observationally the same. -/
def dropVisited (visited : List String) :
    List BfsEntry → Option (BfsEntry × List BfsEntry)
  | [] => none
  | e :: rest =>
    if e.station ∈ visited then dropVisited visited rest else some (e, rest)

/-- The BFS loop of `findSegmentedRoutes` (lines 257-301).  `fuel` bounds the
number of pops of unvisited stations; each such pop adds a fresh station from
`origin :: stations` to `visited`, so `stations.length + 1` fuel is enough: the
`fuel = 0` branch is unreachable from the entry point (proved below). -/
def segGo (md : MatrixData) (destination seatType : String) :
    ℕ → List BfsEntry → List String → Option ComposedRoute
  | 0, _, _ => none
  | fuel + 1, queue, visited =>
    match dropVisited visited queue with
    | none => none
    | some (e, rest) =>
      if e.station = destination then
        some { rtype := "SEGMENTED", seatType := some seatType,
               segments := e.path, totalFare := e.fare }
      else
        segGo md destination seatType fuel
          (rest ++ segPushes md seatType e.station e) (e.station :: visited)

/-- `findSegmentedRoutes(origin, destination, seatType, stations,
fareMatrices)`: breadth-first search from `origin`, expanding only toward
higher station indices through cells with `online > 0` for `seatType`. -/
def findSegmentedRoutes (md : MatrixData) (origin destination seatType : String) :
    Option ComposedRoute :=
  segGo md destination seatType (md.stations.length + 1)
    [{ station := origin, path := [], fare := 0 }] []

/-- The stations the mixed-class search pushes from `a`: for each higher-index
station the *first* seat type in `seatTypes` order with an available cell
(lines 321-351). -/
def mixedPushes (md : MatrixData) (seatTypes : List String) (a : String)
    (e : BfsEntry) : List BfsEntry :=
  (List.range md.stations.length).filterMap fun (i : ℕ) =>
    if (i : ℤ) > jsIndexOf md.stations a then
      match md.stations.get? i with
      | none => none
      | some b =>
        match seatTypes.find? (fun st =>
            match md.fareMatrices st a b with
            | some cell => 0 < cell.online
            | none => false) with
        | none => none
        | some st =>
          match md.fareMatrices st a b with
          | none => none
          | some cell =>
            let seg := mkSegment md a b st cell
            some { station := b, path := e.path ++ [seg],
                   fare := e.fare + seg.total }
    else none

/-- The BFS loop of `findMixedSegmentedRoutes` (lines 303-355). -/
def mixedGo (md : MatrixData) (destination : String) (seatTypes : List String) :
    ℕ → List BfsEntry → List String → Option ComposedRoute
  | 0, _, _ => none
  | fuel + 1, queue, visited =>
    match dropVisited visited queue with
    | none => none
    | some (e, rest) =>
      if e.station = destination then
        some { rtype := "MIXED_SEGMENTED", seatType := none,
               segments := e.path, totalFare := e.fare }
      else
        mixedGo md destination seatTypes fuel
          (rest ++ mixedPushes md seatTypes e.station e) (e.station :: visited)

/-- `findMixedSegmentedRoutes(origin, destination, stations, fareMatrices,
seatTypes)`. -/
def findMixedSegmentedRoutes (md : MatrixData) (origin destination : String)
    (seatTypes : List String) : Option ComposedRoute :=
  mixedGo md destination seatTypes (md.stations.length + 1)
    [{ station := origin, path := [], fare := 0 }] []

/-! ## Fare-matrix assembly (part_002, `computeMatrix`) -/

/-- The route combinations of `computeMatrix` (lines 307-329): every ordered
pair `(stations[i], stations[j])` with `i < j`, enumerated with `i` ascending
and, for each `i`, `j` ascending from `i + 1`. -/
def routeCombinations : List String → List (String × String)
  | [] => []
  | s :: rest => rest.map (fun t => (s, t)) ++ routeCombinations rest

/-- The zero-filled cell written for a failed unit:
`{ online: 0, offline: 0, fare: 0 }` (no `vat_amount` key). -/
def zeroFillCell : FareCell :=
  { online := 0, offline := 0, fare := 0, vat_amount := none }

/-- The settlement of one query unit of `computeMatrix` as observed by the
`Promise.allSettled` post-processing (lines 418-462): a unit that returns
normally is `fulfilled success seatInfo` (`seatInfo = none` exactly for the
caught-failure `success: false` case); a unit whose promise rejects — the
inner `catch` re-throws cancellation and authentication-family errors — is
`rejected`, and the post-processing only counts it as a failure without
writing any cell. -/
inductive UnitOutcome where
  | fulfilled (success : Bool) (seatInfo : Option (String → Option FareCell))
  | rejected
deriving Inhabited

/-- The per-class fare matrices: seat type → origin → destination → cell. -/
def Matrices := String → String → String → Option FareCell

/-- The first result loop for a fulfilled unit (lines 441-447): for every seat
type the cell `seatInfo[seatType] || zero` (zero when the whole `seatInfo` is
null) is written at `(seatType, fromCity, toCity)`. -/
def writeUnit (m : Matrices) (fromCity toCity : String)
    (seatInfo : Option (String → Option FareCell)) : Matrices :=
  fun st a b =>
    if st ∈ SEAT_TYPES ∧ a = fromCity ∧ b = toCity then
      some (match seatInfo with
            | some f => (f st).getD zeroFillCell
            | none => zeroFillCell)
    else m st a b

/-- The second result loop (lines 450-457): a seat type is flagged as having
data when the unit's `seatInfo` holds it with `online + offline > 0`. -/
def updateHasData (hd : String → Bool)
    (seatInfo : Option (String → Option FareCell)) : String → Bool :=
  fun st =>
    hd st ||
      (st ∈ SEAT_TYPES &&
        match seatInfo with
        | some f =>
          match f st with
          | some cell => decide (0 < cell.online + cell.offline)
          | none => false
        | none => false)

/-- The `results.forEach` post-processing fold of `computeMatrix`: each
fulfilled unit writes its cells and updates the has-data flags; a rejected
unit only increments the failure counter. -/
def processResults (items : List ((String × String) × UnitOutcome)) :
    Matrices × (String → Bool) :=
  items.foldl
    (fun (acc : Matrices × (String → Bool)) item =>
      match item.2 with
      | UnitOutcome.fulfilled _ seatInfo =>
        (writeUnit acc.1 item.1.1 item.1.2 seatInfo,
         updateHasData acc.2 seatInfo)
      | UnitOutcome.rejected => acc)
    (fun _ _ _ => none, fun _ => false)

/-- The deterministic core of `computeMatrix` downstream of the network: given
the station list and the settlement of each query unit (in combination order),
build the fare matrices and has-data map, and fail (`none`, the
"No seats available" throw of line 481) when no seat type has any data. -/
def computeMatrixCore (stations : List String) (outcomes : List UnitOutcome) :
    Option (Matrices × (String → Bool)) :=
  let res := processResults ((routeCombinations stations).zip outcomes)
  if SEAT_TYPES.any res.2 then some res else none

/-! ## Per-pair seat-availability ingestion (railwayAPI.js,
`getSeatAvailability`, lines 241-272) -/

/-- One entry of the remote response's `seat_types` array, with its fare and
VAT already run through `parseFloat`. -/
structure RemoteSeatType where
  stype : String
  online : ℕ
  offline : ℕ
  fare : ℤ
  vat_amount : ℤ
deriving DecidableEq, Repr

/-- The initial cell every enumerated seat type gets:
`{ online: 0, offline: 0, fare: 0, vat_amount: 0 }`. -/
def zeroSeatEntry : FareCell :=
  { online := 0, offline := 0, fare := 0, vat_amount := some 0 }

/-- Ingestion of one response entry: berth classes (`AC_B`, `F_BERTH`) get a
fixed 50-unit surcharge added to the base fare. -/
def ingestSeat (s : RemoteSeatType) : FareCell :=
  let fare := if s.stype = "AC_B" ∨ s.stype = "F_BERTH" then s.fare + 50
              else s.fare
  { online := s.online, offline := s.offline, fare := fare,
    vat_amount := some s.vat_amount }

/-- The `seatInfo` object built for the matched train: every enumerated seat
type is initialised to the zero entry, then each response entry whose `type`
is in the enumeration overwrites its class; entries with other types are
skipped. -/
def buildSeatInfo (seats : List RemoteSeatType) : String → Option FareCell :=
  seats.foldl
    (fun si seat =>
      if seat.stype ∈ SEAT_TYPES then
        fun st => if st = seat.stype then some (ingestSeat seat) else si st
      else si)
    (fun st => if st ∈ SEAT_TYPES then some zeroSeatEntry else none)

/-! ## Availability check error synthesis (railwayAPI.js,
`checkSeatAvailability`, lines 1206-1458) -/

/-- JavaScript `String.prototype.includes`. -/
def jsIncludes (s pat : String) : Bool := decide (pat.toList <:+: s.toList)

/-- The `error_info` attached to a 422 seat-layout failure
(`fetchSeatLayout`, lines 872-895). -/
structure ErrorInfo where
  message : String
  errorKey : String
deriving DecidableEq, Repr

/-- The five families of synthesized failure messages of the all-failed branch
(lines 1390-1453).  The concrete message texts interpolate a retry time taken
from the remote message or from the wall clock, which is outside the model;
the family fully determines which of the five messages is synthesized. -/
inductive FailCause where
  | ticketTimeNotOpen
  | ongoingPurchase
  | activeReservation
  | orderLimit
  | generic
deriving DecidableEq, Repr

/-- The diagnosis chain applied to one `error_info` (lines 1398-1444): ticket
window not yet open, an in-progress purchase, an active reservation
("Multiple order attempt detected"), an order-limit breach, or none of these
(the scan then moves on to the next failed unit). -/
def diagnose (ei : ErrorInfo) : Option FailCause :=
  if jsIncludes ei.message "ticket purchase for this trip will be available" ∨
      jsIncludes ei.message "East Zone" ∨ jsIncludes ei.message "West Zone" then
    some FailCause.ticketTimeNotOpen
  else if jsIncludes ei.message "Your purchase process is on-going" then
    some FailCause.ongoingPurchase
  else if jsIncludes ei.message "Multiple order attempt detected" then
    some FailCause.activeReservation
  else if ei.errorKey = "OrderLimitExceeded" then
    some FailCause.orderLimit
  else none

/-- Settlement of one seat-layout fetch unit: `ok` is a successful
`fetchSeatLayout` (whose result always carries `is_422: false`); `fail` is the
caught error, carrying `error_info` exactly when the failure was a 422. -/
inductive LayoutOutcome where
  | ok
  | fail (error_info : Option ErrorInfo)
deriving Inhabited

/-- One element of a train's `seat_data` array as assembled from a unit's
settlement (lines 1272-1352): a failed unit records `is_422: true` — whatever
the error was — together with any 422 `error_info`. -/
structure SeatTypeData where
  stype : String
  is_422 : Bool
  error_info : Option ErrorInfo
  error_message : Option String

/-- The object a unit's settlement contributes to `seat_data`. -/
def mkSeatTypeData (stype : String) : LayoutOutcome → SeatTypeData
  | LayoutOutcome.ok =>
    { stype := stype, is_422 := false, error_info := none,
      error_message := none }
  | LayoutOutcome.fail ei =>
    { stype := stype, is_422 := true, error_info := ei, error_message := none }

/-- Per-train details of the result map. -/
structure TrainDetails where
  seat_data : List SeatTypeData
  all_seats_422 : Bool

/-- The per-train error message of the first pass over `seat_data`
(lines 1356-1382): decided by the first 422 entry carrying `error_info`. -/
def trainErrorMessage (sd : List SeatTypeData) : Option String :=
  sd.findSome? fun st =>
    if st.is_422 then
      match st.error_info with
      | some ei =>
        if ei.errorKey = "OrderLimitExceeded" then
          some "Please retry with a different account as you have reached the maximum order limit for this train on the selected day, so seat info cannot be fetched at this moment."
        else
          some "Please retry with a different account to get seat info for this train."
      | none => none
    else none

/-- The diagnosis the all-failed scan extracts from one `seat_data` entry:
only 422 entries that carry `error_info` are examined. -/
def seatScan (sd : SeatTypeData) : Option FailCause :=
  if sd.is_422 then
    match sd.error_info with
    | some ei => diagnose ei
    | none => none
  else none

/-- All seat-layout fetch units, queued train by train, seat type by seat
type (lines 1226-1256). -/
def allSeatRequests (trains : List (String × List String)) :
    List (String × String) :=
  trains.flatMap fun t => t.2.map fun st => (t.1, st)

/-- The `seat_data` array pushed for one trip number: the settled units whose
request carries that trip number, in settlement-report order (which is
request order, since `Promise.allSettled` preserves it). -/
def seatDataFor (settled : List ((String × String) × LayoutOutcome))
    (trip : String) : List SeatTypeData :=
  settled.filterMap fun u =>
    if u.1.1 = trip then some (mkSeatTypeData u.1.2 u.2) else none

/-- One train's entry of the result map, including the two error-message
passes of lines 1356-1387. -/
def buildTrainDetails (settled : List ((String × String) × LayoutOutcome))
    (t : String × List String) : String × TrainDetails :=
  let sd := seatDataFor settled t.1
  let sd' := match trainErrorMessage sd with
    | some m => sd.map fun s => { s with error_message := some m }
    | none => sd
  (t.1, { seat_data := sd', all_seats_422 := sd'.all (·.is_422) })

/-- The deterministic core of `checkSeatAvailability` downstream of the train
listing: `trains` pairs each trip number with its seat-type list;
`outcomes` gives the settlement of each seat-layout fetch unit, in the order
the units were queued.  When at least one unit succeeded the per-train result
map is returned; when every unit failed (and a train list exists) the call
instead fails with the message family of the first diagnosable cause found,
or the generic fallback (lines 1390-1458). -/
def checkSeatAvailabilityCore (trains : List (String × List String))
    (outcomes : List LayoutOutcome) :
    Except FailCause (List (String × TrainDetails)) :=
  let settled := (allSeatRequests trains).zip outcomes
  let allFailed422 :=
    settled.all fun u =>
      match u.2 with
      | LayoutOutcome.ok => false
      | LayoutOutcome.fail _ => true
  let result := trains.map (buildTrainDetails settled)
  if allFailed422 ∧ trains.length > 0 then
    Except.error
      (((result.findSome? fun t => t.2.seat_data.findSome? seatScan).getD
        FailCause.generic))
  else
    Except.ok result

/-- The diagnosis a unit's settlement can contribute to the all-failed scan. -/
def diagOf : LayoutOutcome → Option FailCause
  | LayoutOutcome.ok => none
  | LayoutOutcome.fail none => none
  | LayoutOutcome.fail (some ei) => diagnose ei

/-- The first diagnosable cause over the unit settlements in queue order. -/
def firstDiagnosableCause (outcomes : List LayoutOutcome) : Option FailCause :=
  outcomes.findSome? diagOf

/-! ## The bounded-concurrency pool (part_002 `processWithOptimalSpeed`,
lines 350-407, and railwayAPI.js `processWithConcurrency`, lines 1262-1336 —
the two dispatch loops are structurally identical).

The event-loop nondeterminism is modelled by an oracle `pick` choosing, each
time the loop awaits, which in-flight unit settles.  The trace records the
number of simultaneously in-flight (unresolved) units after every settle and
every dispatch.

A unit's promise can settle as a *rejection*: in part_002 the unit closure
re-throws cancellation errors (lines 383-385) and authentication-family
errors (lines 387-394), while in railwayAPI.js every error is caught and the
promise always fulfills.  Whether a unit rejects is modelled by the `rejects`
predicate.  When a rejection settles while the dispatcher is blocked at
`await Promise.race(executing)` (the full-pool wait), the `await` throws and
the whole dispatch function aborts: units still in flight settle later,
detached from the function (their `finally` handlers run regardless), but the
still-queued units are never dispatched and never settle; the final
`await Promise.allSettled(results)` swallows rejections, so a rejection that
settles only during the drain does not abort. -/

/-- Remove the element at an index, returning it and the remainder. -/
def removeAt {ι : Type} (l : List ι) (i : ℕ) : Option (ι × List ι) :=
  match l[i]? with
  | none => none
  | some x => some (x, l.eraseIdx i)

/-- The state after the `while (executing.size >= MAX_CONCURRENT_REQUESTS)
await Promise.race(executing)` loop: the remaining in-flight units, the units
that settled during the loop, the next oracle position, the trace of
in-flight sizes, and whether the last settled race winner's promise rejected,
which makes the `await` throw out of the dispatch loop. -/
structure SettleResult (ι : Type) where
  inflight : List ι
  settled : List ι
  k : ℕ
  trace : List ℕ
  raceThrew : Bool
deriving Repr

/-- The full-pool wait loop: settle oracle-chosen in-flight units until the
pool is below the cap, or until a settled unit rejects, which aborts the
loop with `raceThrew`.  `fuel` is the in-flight count at entry, which bounds
the number of settlements. -/
def settleWhile {ι : Type} (cap : ℕ) (pick : ℕ → ℕ) (rejects : ι → Bool) :
    ℕ → List ι → ℕ → SettleResult ι
  | 0, inflight, k => ⟨inflight, [], k, [], false⟩
  | fuel + 1, inflight, k =>
    if cap ≤ inflight.length then
      match removeAt inflight (pick k % inflight.length) with
      | none => ⟨inflight, [], k, [], false⟩
      | some (x, rest) =>
        if rejects x then ⟨rest, [x], k + 1, [rest.length], true⟩
        else
          let r := settleWhile cap pick rejects fuel rest (k + 1)
          ⟨r.inflight, x :: r.settled, r.k, rest.length :: r.trace, r.raceThrew⟩
    else ⟨inflight, [], k, [], false⟩

/-- The final `await Promise.allSettled(results)`: every still-in-flight unit
settles, in oracle order.  `fuel` is the in-flight count at entry. -/
def drainAll {ι : Type} (pick : ℕ → ℕ) :
    ℕ → List ι → ℕ → (List ι × List ℕ)
  | 0, _, _ => ([], [])
  | fuel + 1, inflight, k =>
    match removeAt inflight (pick k % inflight.length) with
    | none => ([], [])
    | some (x, rest) =>
      let r := drainAll pick fuel rest (k + 1)
      (x :: r.1, rest.length :: r.2)

/-- The outcome of a dispatch loop run: either it reached the final
`await Promise.allSettled(results)` and every dispatched unit settled, or an
in-flight unit's rejection settled first during a full-pool
`await Promise.race`, the `await` threw and the loop aborted — the units
still in flight settle later, detached from the function, and the queued
units are never dispatched and never settle. -/
inductive PoolResult (ι : Type) where
  | ok (trace : List ℕ) (settled : List ι)
  | aborted (trace : List ℕ) (settled : List ι) (detached : List ι)
      (neverDispatched : List ι)
deriving DecidableEq, Repr

/-- The recorded in-flight sizes of a pool run. -/
def PoolResult.trace {ι : Type} : PoolResult ι → List ℕ
  | PoolResult.ok tr _ => tr
  | PoolResult.aborted tr _ _ _ => tr

/-- The dispatch loop: for each unit, first settle while the pool is at the
cap — a rejection settling there throws out of the loop — then dispatch the
unit (`executing.add`); after the last dispatch, await all remaining units
with `Promise.allSettled`, which swallows rejections. -/
def poolGo {ι : Type} (cap : ℕ) (pick : ℕ → ℕ) (rejects : ι → Bool) :
    List ι → List ι → ℕ → PoolResult ι
  | [], inflight, k =>
    let r := drainAll pick inflight.length inflight k
    PoolResult.ok r.2 r.1
  | u :: rest, inflight, k =>
    let s := settleWhile cap pick rejects inflight.length inflight k
    if s.raceThrew then
      PoolResult.aborted s.trace s.settled s.inflight (u :: rest)
    else
      match poolGo cap pick rejects rest (s.inflight ++ [u]) s.k with
      | PoolResult.ok tr st =>
          PoolResult.ok (s.trace ++ (s.inflight ++ [u]).length :: tr)
            (s.settled ++ st)
      | PoolResult.aborted tr st det nd =>
          PoolResult.aborted (s.trace ++ (s.inflight ++ [u]).length :: tr)
            (s.settled ++ st) det nd

/-- `processWithConcurrency(requests)` / `processWithOptimalSpeed(items)`:
run all units through the pool starting empty. -/
def processWithConcurrency {ι : Type} (cap : ℕ) (units : List ι)
    (pick : ℕ → ℕ) (rejects : ι → Bool) : PoolResult ι :=
  poolGo cap pick rejects units [] 0

/-! ## Theorems -/

/-- C4: for every stop with parseable arrival and departure times and a
declared halt, `cleanHaltTimes` (a map of `cleanHaltStop` over the stops)
recomputes the halt as departure-of-day minus arrival-of-day in minutes,
adding 24 h when the departure-of-day is earlier than the arrival-of-day, and
overwrites the declared halt exactly when the declared value is negative or
exceeds 120 minutes; a declared halt in [0, 120] leaves the stop unchanged. -/
theorem c4_halt_correction (stop : RouteStop) (a d : Time12) (h : ℤ)
    (ha : stop.arrival_time = TimeField.parsed a)
    (hd : stop.departure_time = TimeField.parsed d)
    (hh : stop.halt = some h) :
    (cleanHaltStop stop).halt =
      some (if h > 120 ∨ h < 0 then
              ((if d.minutesOfDay < a.minutesOfDay then
                  d.minutesOfDay + 24 * 60
                else d.minutesOfDay : ℕ) : ℤ) - (a.minutesOfDay : ℤ)
            else h) ∧
    (¬ (h > 120 ∨ h < 0) → cleanHaltStop stop = stop) := by
  cases stop with
  | mk city arr dep ht dd =>
    simp only at ha hd hh
    subst ha hd hh
    constructor
    · simp only [cleanHaltStop]
      split
      · simp
      · simp_all
    · intro hin
      simp [cleanHaltStop, if_neg hin]

/-- The stop of the spec's worked example: declared halt 300 minutes, arrival
10:00 am, departure 10:05 am. -/
def c4ExampleStop : RouteStop :=
  { city := "Dhaka", arrival_time := TimeField.parsed ⟨10, 0, false⟩,
    departure_time := TimeField.parsed ⟨10, 5, false⟩,
    halt := some 300, display_date := none }

/-- A stop with the same times but a declared halt inside [0, 120]. -/
def c4InRangeStop : RouteStop := { c4ExampleStop with halt := some 100 }

/-- Witness for C4: the example halt 300 with 10:00 → 10:05 becomes 5, and a
declared halt of 100 is left unchanged. -/
theorem c4_halt_correction_witness :
    (cleanHaltStop c4ExampleStop).halt = some 5 ∧
    cleanHaltStop c4InRangeStop = c4InRangeStop := by
  constructor
  · have h := c4_halt_correction c4ExampleStop ⟨10, 0, false⟩ ⟨10, 5, false⟩ 300
      (by decide) (by decide) (by decide)
    rw [h.1]
    decide
  · have h := c4_halt_correction c4InRangeStop ⟨10, 0, false⟩ ⟨10, 5, false⟩ 100
      (by decide) (by decide) (by decide)
    exact h.2 (by decide)

/-- C5: for every present matrix cell, `findDirectRoute` returns a route
exactly when the cell's online count is strictly positive; the returned route
is a single segment whose total is base fare + VAT (defaulted to 0) + the
fixed service charge 20 and whose seat count is online + offline. -/
theorem c5_find_direct (md : MatrixData) (origin destination seatType : String)
    (cell : FareCell)
    (hc : md.fareMatrices seatType origin destination = some cell) :
    ((findDirectRoute md origin destination seatType).isSome ↔ 0 < cell.online) ∧
    (0 < cell.online →
      findDirectRoute md origin destination seatType =
        some { rtype := "DIRECT", seatType := some seatType,
               segments := [mkSegment md origin destination seatType cell],
               totalFare := cell.fare + cell.vat_amount.getD 0 + 20 }) ∧
    (mkSegment md origin destination seatType cell).total =
      cell.fare + cell.vat_amount.getD 0 + 20 ∧
    (mkSegment md origin destination seatType cell).seats =
      cell.online + cell.offline := by
  have hseg : (mkSegment md origin destination seatType cell).total =
      cell.fare + cell.vat_amount.getD 0 + 20 := rfl
  have heq : findDirectRoute md origin destination seatType =
      if 0 < cell.online then
        some { rtype := "DIRECT", seatType := some seatType,
               segments := [mkSegment md origin destination seatType cell],
               totalFare := (mkSegment md origin destination seatType cell).total }
      else none := by
    unfold findDirectRoute
    rw [hc]
  refine ⟨?_, ?_, hseg, rfl⟩
  · rw [heq]
    split <;> simp_all
  · intro hpos
    rw [heq, if_pos hpos, hseg]

/-- The matrix of the spec's worked example for C5: one cell with
`online: 5, offline: 2, fare: 100, vat_amount: 10`, and one sold-out cell. -/
def c5ExampleMd : MatrixData :=
  { stations := ["A", "B"],
    fareMatrices := fun st a b =>
      if st = "S_CHAIR" ∧ a = "A" ∧ b = "B" then
        some { online := 5, offline := 2, fare := 100, vat_amount := some 10 }
      else if st = "SHOVAN" ∧ a = "A" ∧ b = "B" then
        some { online := 0, offline := 2, fare := 100, vat_amount := some 10 }
      else none,
    stationDatesFormatted := fun _ => none,
    date := "10-Jun-2025" }

/-- Witness for C5: the example cell yields total 130 and 7 reported seats,
and the zero-online cell yields `null`. -/
theorem c5_find_direct_witness :
    ((findDirectRoute c5ExampleMd "A" "B" "S_CHAIR").map
        (fun r => (r.totalFare, r.segments.map (·.seats))) = some (130, [7])) ∧
    findDirectRoute c5ExampleMd "A" "B" "SHOVAN" = none := by
  have h := c5_find_direct c5ExampleMd "A" "B" "S_CHAIR"
    { online := 5, offline := 2, fare := 100, vat_amount := some 10 } (by decide)
  have h2 := c5_find_direct c5ExampleMd "A" "B" "SHOVAN"
    { online := 0, offline := 2, fare := 100, vat_amount := some 10 } (by decide)
  constructor
  · rw [h.2.1 (by decide)]
    decide
  · rcases hs : findDirectRoute c5ExampleMd "A" "B" "SHOVAN" with _ | r
    · rfl
    · have : (0:ℕ) < 0 := h2.1.mp (by rw [hs]; rfl)
      exact absurd this (by decide)

/-- C9: when the origin station equals the destination station, both
`findSegmentedRoutes` and `findMixedSegmentedRoutes` pop the initial queue
entry, see it is the destination, and return a composed route with an empty
segment list and total fare 0 rather than `null`. -/
theorem c9_same_station (md : MatrixData) (origin seatType : String)
    (seatTypes : List String) :
    findSegmentedRoutes md origin origin seatType =
      some { rtype := "SEGMENTED", seatType := some seatType,
             segments := [], totalFare := 0 } ∧
    findMixedSegmentedRoutes md origin origin seatTypes =
      some { rtype := "MIXED_SEGMENTED", seatType := none,
             segments := [], totalFare := 0 } := by
  constructor
  · show segGo md origin seatType (md.stations.length + 1) _ _ = _
    rw [segGo]
    simp [dropVisited]
  · show mixedGo md origin seatTypes (md.stations.length + 1) _ _ = _
    rw [mixedGo]
    simp [dropVisited]

/-- Helper for C10: the fold of `buildSeatInfo` leaves a key untouched when no
remaining response entry carries that type. -/
theorem buildSeatInfo_foldl_untouched (seats : List RemoteSeatType)
    (si : String → Option FareCell) (st : String)
    (habs : ∀ s ∈ seats, s.stype ≠ st) :
    (seats.foldl
      (fun si seat =>
        if seat.stype ∈ SEAT_TYPES then
          fun st => if st = seat.stype then some (ingestSeat seat) else si st
        else si) si) st = si st := by
  induction seats generalizing si with
  | nil => rfl
  | cons s rest ih =>
    have hne : ¬ st = s.stype :=
      fun hst => habs s (List.mem_cons_self s rest) hst.symm
    have habs' : ∀ x ∈ rest, x.stype ≠ st :=
      fun x hx => habs x (List.mem_cons_of_mem s hx)
    simp only [List.foldl_cons]
    split
    · rw [ih _ habs']
      simp [if_neg hne]
    · exact ih _ habs'

/-- Helper for C10: the fold preserves "defined exactly on the enumerated
seat types". -/
theorem buildSeatInfo_foldl_isSome (seats : List RemoteSeatType)
    (si : String → Option FareCell)
    (hsi : ∀ st : String, (si st).isSome ↔ st ∈ SEAT_TYPES) (st : String) :
    ((seats.foldl
      (fun si seat =>
        if seat.stype ∈ SEAT_TYPES then
          fun st => if st = seat.stype then some (ingestSeat seat) else si st
        else si) si) st).isSome ↔ st ∈ SEAT_TYPES := by
  induction seats generalizing si with
  | nil => exact hsi st
  | cons s rest ih =>
    simp only [List.foldl_cons]
    by_cases hmem : s.stype ∈ SEAT_TYPES
    · rw [if_pos hmem]
      refine ih _ (fun st' => ?_)
      by_cases hst' : st' = s.stype
      · simp [hst', hmem]
      · simp [if_neg hst', hsi st']
    · rw [if_neg hmem]
      exact ih _ hsi

/-- Helper for C10: response entries whose type is outside the enumeration do
not affect the fold. -/
theorem buildSeatInfo_foldl_filter (seats : List RemoteSeatType)
    (si : String → Option FareCell) :
    (seats.filter (fun s => s.stype ∈ SEAT_TYPES)).foldl
      (fun si seat =>
        if seat.stype ∈ SEAT_TYPES then
          fun st => if st = seat.stype then some (ingestSeat seat) else si st
        else si) si =
    seats.foldl
      (fun si seat =>
        if seat.stype ∈ SEAT_TYPES then
          fun st => if st = seat.stype then some (ingestSeat seat) else si st
        else si) si := by
  induction seats generalizing si with
  | nil => rfl
  | cons s rest ih =>
    by_cases hmem : s.stype ∈ SEAT_TYPES
    · rw [List.filter_cons_of_pos (by simpa using hmem)]
      simp only [List.foldl_cons, if_pos hmem]
      exact ih _
    · rw [List.filter_cons_of_neg (by simpa using hmem)]
      simp only [List.foldl_cons, if_neg hmem]
      exact ih _

/-- C10: every `seatInfo` built by `getSeatAvailability` for the matched train
is defined on exactly the ten enumerated seat classes; a class no response
entry names keeps its zero initialisation
`online 0 / offline 0 / fare 0 / vat_amount 0`; and response entries whose
type is outside the enumeration are ignored entirely. -/
theorem c10_seat_info_shape (seats : List RemoteSeatType) :
    (∀ st : String, (buildSeatInfo seats st).isSome ↔ st ∈ SEAT_TYPES) ∧
    (∀ st : String, st ∈ SEAT_TYPES → (∀ s ∈ seats, s.stype ≠ st) →
      buildSeatInfo seats st = some zeroSeatEntry) ∧
    buildSeatInfo (seats.filter (fun s => s.stype ∈ SEAT_TYPES)) =
      buildSeatInfo seats := by
  refine ⟨fun st => ?_, fun st hst habs => ?_, ?_⟩
  · exact buildSeatInfo_foldl_isSome seats _
      (fun st' => by by_cases hmem : st' ∈ SEAT_TYPES <;> simp [hmem]) st
  · unfold buildSeatInfo
    rw [buildSeatInfo_foldl_untouched seats _ st habs]
    simp [hst]
  · exact buildSeatInfo_foldl_filter seats _

/-- Witness for C10: a response naming only `SHOVAN` plus an unknown type
yields a map defined exactly on the ten classes, with `S_CHAIR` still zero. -/
theorem c10_seat_info_shape_witness :
    ((buildSeatInfo [⟨"SHOVAN", 3, 1, 40, 6⟩, ⟨"MYSTERY", 9, 9, 9, 9⟩]
        "S_CHAIR").isSome ↔ "S_CHAIR" ∈ SEAT_TYPES) ∧
    buildSeatInfo [⟨"SHOVAN", 3, 1, 40, 6⟩, ⟨"MYSTERY", 9, 9, 9, 9⟩]
        "S_CHAIR" = some zeroSeatEntry := by
  have h := c10_seat_info_shape [⟨"SHOVAN", 3, 1, 40, 6⟩, ⟨"MYSTERY", 9, 9, 9, 9⟩]
  exact ⟨h.1 "S_CHAIR", h.2.1 "S_CHAIR" (by decide) (by decide)⟩

/-! ### Station-date resolution: C3 and C2 -/

/-- The parseable times-of-day of a stop list, in order; each stop is read
through `departure_time || arrival_time`, matching the `previousTime`
tracking of `calculateStationDates`. -/
def parsedTimes : List RouteStop → List Time12
  | [] => []
  | s :: l =>
    match s.timeField with
    | TimeField.parsed t => t :: parsedTimes l
    | _ => parsedTimes l

/-- Times-of-day compared at second granularity, as the source compares
them. -/
def timeLE (a b : Time12) : Prop := a.secondsOfDay ≤ b.secondsOfDay

instance : DecidableRel timeLE := fun a b =>
  inferInstanceAs (Decidable (a.secondsOfDay ≤ b.secondsOfDay))

theorem parsedTimes_cons (s : RouteStop) (l : List RouteStop) :
    parsedTimes (s :: l) =
      match s.timeField with
      | TimeField.parsed t => t :: parsedTimes l
      | _ => parsedTimes l := rfl

/-- One-step unfolding of `calcGo` on a cons cell. -/
theorem calcGo_cons (stop : RouteStop) (rest : List RouteStop) (cur : SDate)
    (prev : Option Time12) (acc : List RouteStop)
    (dates : String → Option String) :
    calcGo (stop :: rest) cur prev acc dates =
      (match ({ stop with display_date := none } : RouteStop).timeField with
       | TimeField.absent =>
         calcGo rest cur prev ({ stop with display_date := none } :: acc)
           (updateDict dates stop.city (formatYMD cur))
       | TimeField.unparseable =>
         calcGo rest cur prev ({ stop with display_date := none } :: acc) dates
       | TimeField.parsed t =>
         match prev with
         | none =>
           calcGo rest cur (some t) ({ stop with display_date := none } :: acc)
             (updateDict dates stop.city (formatYMD cur))
         | some p =>
           if t.secondsOfDay < p.secondsOfDay then
             if t.secondsOfDay + 24 * 3600 - p.secondsOfDay < 12 * 3600 then
               calcGo rest (addOneDay cur) (some t)
                 ({ stop with
                      display_date := some (formatDisplay (addOneDay cur)) } ::
                   (match acc with
                    | [] => acc
                    | prevStop :: accRest =>
                      { prevStop with
                          display_date := some (formatDisplay cur) } :: accRest))
                 (updateDict dates stop.city (formatYMD (addOneDay cur)))
             else
               calcGo rest cur (some t)
                 ({ stop with display_date := none } :: acc)
                 (updateDict dates stop.city (formatYMD cur))
           else
             calcGo rest cur (some t)
               ({ stop with display_date := none } :: acc)
               (updateDict dates stop.city (formatYMD cur))) := rfl

theorem updateDict_lookup (d : String → Option String) (k v c : String) :
    updateDict d k v c = d c ∨ updateDict d k v c = some v := by
  unfold updateDict
  split
  · exact Or.inr rfl
  · exact Or.inl rfl

theorem updateDict_self (d : String → Option String) (k v : String) :
    updateDict d k v k = some v := by
  unfold updateDict
  rw [if_pos rfl]

/-- In steady (non-decreasing) mode, the date dictionary only gains entries
stamped with the running date: the resolver never advances the date. -/
theorem calcGo_steady_lookup (routes : List RouteStop) (cur : SDate) :
    ∀ (prev : Option Time12) (acc : List RouteStop)
      (dates : String → Option String),
    List.Chain' timeLE (prev.toList ++ parsedTimes routes) →
    ∀ c, (calcGo routes cur prev acc dates).2 c = dates c ∨
         (calcGo routes cur prev acc dates).2 c = some (formatYMD cur) := by
  induction routes with
  | nil => intro prev acc dates _ c; exact Or.inl rfl
  | cons stop rest ih =>
    intro prev acc dates hchain c
    rw [calcGo_cons]
    cases h : ({ stop with display_date := none } : RouteStop).timeField with
    | absent =>
      have ht : stop.timeField = TimeField.absent := h
      have hpt : parsedTimes (stop :: rest) = parsedTimes rest := by
        rw [parsedTimes_cons, ht]
      rw [hpt] at hchain
      rcases ih prev _ _ hchain c with h1 | h1
      · rcases updateDict_lookup dates stop.city (formatYMD cur) c with h2 | h2
        · exact Or.inl (h1.trans h2)
        · exact Or.inr (h1.trans h2)
      · exact Or.inr h1
    | unparseable =>
      have ht : stop.timeField = TimeField.unparseable := h
      have hpt : parsedTimes (stop :: rest) = parsedTimes rest := by
        rw [parsedTimes_cons, ht]
      rw [hpt] at hchain
      exact ih prev _ _ hchain c
    | parsed t =>
      have ht : stop.timeField = TimeField.parsed t := h
      have hpt : parsedTimes (stop :: rest) = t :: parsedTimes rest := by
        rw [parsedTimes_cons, ht]
      rw [hpt] at hchain
      cases prev with
      | none =>
        have hchain' : List.Chain' timeLE ((some t).toList ++ parsedTimes rest) := by
          simpa using hchain
        rcases ih (some t) _ _ hchain' c with h1 | h1
        · rcases updateDict_lookup dates stop.city (formatYMD cur) c with h2 | h2
          · exact Or.inl (h1.trans h2)
          · exact Or.inr (h1.trans h2)
        · exact Or.inr h1
      | some p =>
        have hpc : List.Chain' timeLE (p :: t :: parsedTimes rest) := by
          simpa using hchain
        have hle : timeLE p t := (List.chain'_cons.mp hpc).1
        have hnlt : ¬ t.secondsOfDay < p.secondsOfDay := not_lt.mpr hle
        dsimp only
        rw [if_neg hnlt]
        have hchain' : List.Chain' timeLE ((some t).toList ++ parsedTimes rest) := by
          simpa using (List.chain'_cons.mp hpc).2
        rcases ih (some t) _ _ hchain' c with h1 | h1
        · rcases updateDict_lookup dates stop.city (formatYMD cur) c with h2 | h2
          · exact Or.inl (h1.trans h2)
          · exact Or.inr (h1.trans h2)
        · exact Or.inr h1

/-- In steady mode, every stop whose time field is not unparseable is stamped
with the running date. -/
theorem calcGo_steady_stamps (routes : List RouteStop) (cur : SDate) :
    ∀ (prev : Option Time12) (acc : List RouteStop)
      (dates : String → Option String),
    List.Chain' timeLE (prev.toList ++ parsedTimes routes) →
    ∀ s ∈ routes, s.timeField ≠ TimeField.unparseable →
      (calcGo routes cur prev acc dates).2 s.city = some (formatYMD cur) := by
  induction routes with
  | nil => intro _ _ _ _ s hs _; exact absurd hs (List.not_mem_nil s)
  | cons stop rest ih =>
    intro prev acc dates hchain s hs hsu
    have hstamp : ∀ (prev' : Option Time12) (acc' : List RouteStop)
        (dates' : String → Option String),
        List.Chain' timeLE (prev'.toList ++ parsedTimes rest) →
        (calcGo rest cur prev' acc'
          (updateDict dates' stop.city (formatYMD cur))).2 stop.city =
          some (formatYMD cur) := by
      intro prev' acc' dates' hch
      rcases calcGo_steady_lookup rest cur prev' acc' _ hch stop.city with h1 | h1
      · rw [h1, updateDict_self]
      · exact h1
    rw [calcGo_cons]
    rcases List.mem_cons.mp hs with rfl | hmem
    · -- the head stop itself
      cases h : ({ s with display_date := none } : RouteStop).timeField with
      | unparseable => exact absurd h hsu
      | absent =>
        have ht : s.timeField = TimeField.absent := h
        have hpt : parsedTimes (s :: rest) = parsedTimes rest := by
          rw [parsedTimes_cons, ht]
        rw [hpt] at hchain
        exact hstamp prev _ dates hchain
      | parsed t =>
        have ht : s.timeField = TimeField.parsed t := h
        have hpt : parsedTimes (s :: rest) = t :: parsedTimes rest := by
          rw [parsedTimes_cons, ht]
        rw [hpt] at hchain
        cases prev with
        | none =>
          have hchain' : List.Chain' timeLE ((some t).toList ++ parsedTimes rest) := by
            simpa using hchain
          exact hstamp (some t) _ dates hchain'
        | some p =>
          have hpc : List.Chain' timeLE (p :: t :: parsedTimes rest) := by
            simpa using hchain
          have hnlt : ¬ t.secondsOfDay < p.secondsOfDay :=
            not_lt.mpr (List.chain'_cons.mp hpc).1
          dsimp only
          rw [if_neg hnlt]
          have hchain' : List.Chain' timeLE ((some t).toList ++ parsedTimes rest) := by
            simpa using (List.chain'_cons.mp hpc).2
          exact hstamp (some t) _ dates hchain'
    · -- a stop further down the list
      cases h : ({ stop with display_date := none } : RouteStop).timeField with
      | absent =>
        have ht : stop.timeField = TimeField.absent := h
        have hpt : parsedTimes (stop :: rest) = parsedTimes rest := by
          rw [parsedTimes_cons, ht]
        rw [hpt] at hchain
        exact ih prev _ _ hchain s hmem hsu
      | unparseable =>
        have ht : stop.timeField = TimeField.unparseable := h
        have hpt : parsedTimes (stop :: rest) = parsedTimes rest := by
          rw [parsedTimes_cons, ht]
        rw [hpt] at hchain
        exact ih prev _ _ hchain s hmem hsu
      | parsed t =>
        have ht : stop.timeField = TimeField.parsed t := h
        have hpt : parsedTimes (stop :: rest) = t :: parsedTimes rest := by
          rw [parsedTimes_cons, ht]
        rw [hpt] at hchain
        cases prev with
        | none =>
          have hchain' : List.Chain' timeLE ((some t).toList ++ parsedTimes rest) := by
            simpa using hchain
          exact ih (some t) _ _ hchain' s hmem hsu
        | some p =>
          have hpc : List.Chain' timeLE (p :: t :: parsedTimes rest) := by
            simpa using hchain
          have hnlt : ¬ t.secondsOfDay < p.secondsOfDay :=
            not_lt.mpr (List.chain'_cons.mp hpc).1
          dsimp only
          rw [if_neg hnlt]
          have hchain' : List.Chain' timeLE ((some t).toList ++ parsedTimes rest) := by
            simpa using (List.chain'_cons.mp hpc).2
          exact ih (some t) _ _ hchain' s hmem hsu

/-- In steady mode the already-accumulated (reversed) prefix of processed
stops is never modified again. -/
theorem calcGo_steady_shape (routes : List RouteStop) (cur : SDate) :
    ∀ (prev : Option Time12) (acc : List RouteStop)
      (dates : String → Option String),
    List.Chain' timeLE (prev.toList ++ parsedTimes routes) →
    ∃ tail, (calcGo routes cur prev acc dates).1 = acc.reverse ++ tail := by
  induction routes with
  | nil => intro _ acc _ _; exact ⟨[], by simp [calcGo]⟩
  | cons stop rest ih =>
    intro prev acc dates hchain
    rw [calcGo_cons]
    cases h : ({ stop with display_date := none } : RouteStop).timeField with
    | absent =>
      have ht : stop.timeField = TimeField.absent := h
      have hpt : parsedTimes (stop :: rest) = parsedTimes rest := by
        rw [parsedTimes_cons, ht]
      rw [hpt] at hchain
      obtain ⟨tl, htl⟩ := ih prev _ _ hchain
      exact ⟨{ stop with display_date := none } :: tl, by rw [htl]; simp⟩
    | unparseable =>
      have ht : stop.timeField = TimeField.unparseable := h
      have hpt : parsedTimes (stop :: rest) = parsedTimes rest := by
        rw [parsedTimes_cons, ht]
      rw [hpt] at hchain
      obtain ⟨tl, htl⟩ := ih prev _ _ hchain
      exact ⟨{ stop with display_date := none } :: tl, by rw [htl]; simp⟩
    | parsed t =>
      have ht : stop.timeField = TimeField.parsed t := h
      have hpt : parsedTimes (stop :: rest) = t :: parsedTimes rest := by
        rw [parsedTimes_cons, ht]
      rw [hpt] at hchain
      cases prev with
      | none =>
        have hchain' : List.Chain' timeLE ((some t).toList ++ parsedTimes rest) := by
          simpa using hchain
        obtain ⟨tl, htl⟩ := ih (some t) _ _ hchain'
        exact ⟨{ stop with display_date := none } :: tl, by rw [htl]; simp⟩
      | some p =>
        have hpc : List.Chain' timeLE (p :: t :: parsedTimes rest) := by
          simpa using hchain
        have hnlt : ¬ t.secondsOfDay < p.secondsOfDay :=
          not_lt.mpr (List.chain'_cons.mp hpc).1
        dsimp only
        rw [if_neg hnlt]
        have hchain' : List.Chain' timeLE ((some t).toList ++ parsedTimes rest) := by
          simpa using (List.chain'_cons.mp hpc).2
        obtain ⟨tl, htl⟩ := ih (some t) _ _ hchain'
        exact ⟨{ stop with display_date := none } :: tl, by rw [htl]; simp⟩

/-- C3: for every stop list whose parseable times-of-day are non-decreasing
from first to last stop, every resolved station date equals the base journey
date. -/
theorem c3_nondecreasing_dates (routes : List RouteStop) (base : SDate)
    (h : List.Chain' timeLE (parsedTimes routes)) :
    ∀ c s, (calculateStationDates routes base).2 c = some s →
      s = formatYMD base := by
  intro c s hcs
  unfold calculateStationDates at hcs
  rcases calcGo_steady_lookup routes base none [] (fun _ => none)
      (by simpa using h) c with h1 | h1
  · rw [h1] at hcs
    cases hcs
  · rw [h1] at hcs
    injection hcs with h2
    exact h2.symm

/-- A schedule with non-decreasing times: 9:00 am then 11:30 am. -/
def c3Routes : List RouteStop :=
  [{ city := "A", arrival_time := TimeField.absent,
     departure_time := TimeField.parsed ⟨9, 0, false⟩,
     halt := none, display_date := none },
   { city := "B", arrival_time := TimeField.parsed ⟨11, 30, false⟩,
     departure_time := TimeField.absent, halt := none, display_date := none }]

/-- Witness for C3: on the concrete non-decreasing schedule both resolved
dates equal the base date. -/
theorem c3_nondecreasing_dates_witness :
    List.Chain' timeLE (parsedTimes c3Routes) ∧
    (calculateStationDates c3Routes ⟨2025, 5, 10⟩).2 "B" = some "2025-06-10" ∧
    "2025-06-10" = formatYMD ⟨2025, 5, 10⟩ := by
  have hchain : List.Chain' timeLE (parsedTimes c3Routes) := by
    rw [(by decide : parsedTimes c3Routes = [⟨9, 0, false⟩, ⟨11, 30, false⟩])]
    exact List.chain'_pair.mpr (by decide)
  refine ⟨hchain, by decide, ?_⟩
  exact c3_nondecreasing_dates c3Routes ⟨2025, 5, 10⟩ hchain "B"
    "2025-06-10" (by decide)

/-! ### C2: midnight rollover display labels -/

/-- First stop of the wrap-around example: departs 11:50 pm (23:50). -/
def c2StopA : RouteStop :=
  { city := "Alpha", arrival_time := TimeField.absent,
    departure_time := TimeField.parsed ⟨11, 50, true⟩,
    halt := none, display_date := none }

/-- Second stop of the wrap-around example: departs 12:10 am (00:10). -/
def c2StopB : RouteStop :=
  { city := "Beta", arrival_time := TimeField.absent,
    departure_time := TimeField.parsed ⟨12, 10, false⟩,
    halt := none, display_date := none }

/-- Base journey date of the example: 10 June 2025 (month is 0-based). -/
def c2Base : SDate := ⟨2025, 5, 10⟩

/-- Counterexample for C2: with stops at 23:50 then 00:10 and base date
10 June 2025, the source labels the 23:50 stop's display date with the
*not-yet-advanced* running day "10 Jun" (part_002 lines 159-165 use
`currentDay` before the date is advanced), not with the next calendar day
"11 Jun" as the claim states; the 00:10 stop is resolved to baseDate+1. -/
theorem c2_display_label_cex :
    ((calculateStationDates [c2StopA, c2StopB] c2Base).1.map (·.display_date)) =
      [some "10 Jun", some "11 Jun"] ∧
    formatDisplay (addOneDay c2Base) = "11 Jun" ∧
    ("10 Jun" : String) ≠ "11 Jun" ∧
    (calculateStationDates [c2StopA, c2StopB] c2Base).2 "Beta" =
      some "2025-06-11" := by
  decide

/-- C2 (amended): for a stop list whose first two parseable stop times read
23:50 then 00:10 (wrap-around gap 20 minutes, below the 12-hour threshold)
and whose following times are non-decreasing, the resolver labels the 23:50
stop's display date with the current (not yet advanced) calendar day — the
base date — labels the 00:10 stop with baseDate+1, and resolves the 00:10
stop and every following (non-unparseable) stop to baseDate+1. -/
theorem c2_rollover_resolution (base : SDate) (stopA stopB : RouteStop)
    (rest : List RouteStop)
    (hA : stopA.timeField = TimeField.parsed ⟨11, 50, true⟩)
    (hB : stopB.timeField = TimeField.parsed ⟨12, 10, false⟩)
    (hrest : List.Chain' timeLE ((⟨12, 10, false⟩ : Time12) :: parsedTimes rest)) :
    ((calculateStationDates (stopA :: stopB :: rest) base).1.head?.map
        (·.display_date) = some (some (formatDisplay base))) ∧
    ((calculateStationDates (stopA :: stopB :: rest) base).1[1]?.map
        (·.display_date) = some (some (formatDisplay (addOneDay base)))) ∧
    (calculateStationDates (stopA :: stopB :: rest) base).2 stopB.city =
      some (formatYMD (addOneDay base)) ∧
    (∀ s ∈ rest, s.timeField ≠ TimeField.unparseable →
      (calculateStationDates (stopA :: stopB :: rest) base).2 s.city =
        some (formatYMD (addOneDay base))) := by
  have hA' : ({ stopA with display_date := none } : RouteStop).timeField =
      TimeField.parsed ⟨11, 50, true⟩ := hA
  have hB' : ({ stopB with display_date := none } : RouteStop).timeField =
      TimeField.parsed ⟨12, 10, false⟩ := hB
  have hstep : calculateStationDates (stopA :: stopB :: rest) base =
      calcGo rest (addOneDay base) (some ⟨12, 10, false⟩)
        [{ stopB with display_date := some (formatDisplay (addOneDay base)) },
         { stopA with display_date := some (formatDisplay base) }]
        (updateDict (updateDict (fun _ => none) stopA.city (formatYMD base))
          stopB.city (formatYMD (addOneDay base))) := by
    unfold calculateStationDates
    rw [calcGo_cons, hA']
    dsimp only
    rw [calcGo_cons, hB']
    dsimp only
    rw [if_pos (by decide : (⟨12, 10, false⟩ : Time12).secondsOfDay <
        (⟨11, 50, true⟩ : Time12).secondsOfDay)]
    rw [if_pos (by decide : (⟨12, 10, false⟩ : Time12).secondsOfDay + 24 * 3600 -
        (⟨11, 50, true⟩ : Time12).secondsOfDay < 12 * 3600)]
  rw [hstep]
  obtain ⟨tail, htail⟩ := calcGo_steady_shape rest (addOneDay base)
    (some ⟨12, 10, false⟩) _ _ (by simpa using hrest)
  refine ⟨?_, ?_, ?_, ?_⟩
  · rw [htail]
    simp
  · rw [htail]
    simp
  · rcases calcGo_steady_lookup rest (addOneDay base) (some ⟨12, 10, false⟩) _ _
        (by simpa using hrest) stopB.city with h1 | h1
    · rw [h1, updateDict_self]
    · exact h1
  · intro s hs hsu
    exact calcGo_steady_stamps rest (addOneDay base) (some ⟨12, 10, false⟩) _ _
      (by simpa using hrest) s hs hsu


/-- Witness for the amended C2, at the concrete two-stop example. -/
theorem c2_rollover_resolution_witness :
    (c2StopA.timeField = TimeField.parsed ⟨11, 50, true⟩ ∧
     c2StopB.timeField = TimeField.parsed ⟨12, 10, false⟩ ∧
     List.Chain' timeLE
       ((⟨12, 10, false⟩ : Time12) :: parsedTimes ([] : List RouteStop))) ∧
    ((calculateStationDates [c2StopA, c2StopB] c2Base).1.head?.map
        (·.display_date) = some (some (formatDisplay c2Base))) ∧
    ((calculateStationDates [c2StopA, c2StopB] c2Base).1[1]?.map
        (·.display_date) = some (some (formatDisplay (addOneDay c2Base)))) ∧
    (calculateStationDates [c2StopA, c2StopB] c2Base).2 c2StopB.city =
      some (formatYMD (addOneDay c2Base)) := by
  have hch : List.Chain' timeLE
      ((⟨12, 10, false⟩ : Time12) :: parsedTimes ([] : List RouteStop)) :=
    List.chain'_singleton _
  have h := c2_rollover_resolution c2Base c2StopA c2StopB [] (by decide)
    (by decide) hch
  exact ⟨⟨by decide, by decide, hch⟩, h.1, h.2.1, h.2.2.1⟩


/-! ### C1: fare-matrix population -/

theorem routeCombinations_mem_of (l : List String) :
    ∀ (i j : ℕ), i < j → ∀ (a b : String), l.get? i = some a →
      l.get? j = some b → (a, b) ∈ routeCombinations l := by
  induction l with
  | nil => intro i j _ a b ha _; cases ha
  | cons s rest ih =>
    intro i j hij a b ha hb
    unfold routeCombinations
    cases i with
    | zero =>
      cases j with
      | zero => cases hij
      | succ j' =>
        injection ha with ha'
        subst ha'
        refine List.mem_append_left _ ?_
        exact List.mem_map.mpr ⟨b, List.get?_mem hb, rfl⟩
    | succ i' =>
      cases j with
      | zero => cases hij
      | succ j' =>
        exact List.mem_append_right _ (ih i' j' (Nat.lt_of_succ_lt_succ hij) a b ha hb)

theorem routeCombinations_mem_exists (l : List String) :
    ∀ (a b : String), (a, b) ∈ routeCombinations l →
      ∃ i j : ℕ, i < j ∧ l.get? i = some a ∧ l.get? j = some b := by
  induction l with
  | nil => intro a b h; cases h
  | cons s rest ih =>
    intro a b h
    unfold routeCombinations at h
    rcases List.mem_append.mp h with h1 | h1
    · rcases List.mem_map.mp h1 with ⟨t, ht, hpair⟩
      injection hpair with h2 h3
      subst h2 h3
      rcases List.get?_of_mem ht with ⟨j, hj⟩
      exact ⟨0, j + 1, Nat.succ_pos j, rfl, hj⟩
    · rcases ih a b h1 with ⟨i, j, hij, ha, hb⟩
      exact ⟨i + 1, j + 1, Nat.succ_lt_succ hij, ha, hb⟩

theorem routeCombinations_mem_stations (l : List String) (a b : String)
    (h : (a, b) ∈ routeCombinations l) : a ∈ l ∧ b ∈ l := by
  rcases routeCombinations_mem_exists l a b h with ⟨i, j, _, ha, hb⟩
  exact ⟨List.get?_mem ha, List.get?_mem hb⟩

theorem routeCombinations_count (l : List String) :
    2 * (routeCombinations l).length + l.length = l.length * l.length := by
  induction l with
  | nil => rfl
  | cons s rest ih =>
    unfold routeCombinations
    rw [List.length_append, List.length_map, List.length_cons]
    calc 2 * (rest.length + (routeCombinations rest).length) + (rest.length + 1)
        = (2 * (routeCombinations rest).length + rest.length) +
            (2 * rest.length + 1) := by ring
      _ = rest.length * rest.length + (2 * rest.length + 1) := by rw [ih]
      _ = (rest.length + 1) * (rest.length + 1) := by ring

theorem routeCombinations_length (l : List String) :
    (routeCombinations l).length = l.length * (l.length - 1) / 2 := by
  have h := routeCombinations_count l
  cases hn : l.length with
  | zero =>
    rw [hn] at h
    omega
  | succ m =>
    rw [hn] at h
    have h2 : (m + 1) * (m + 1) = (m + 1) * m + (m + 1) := by ring
    rw [h2] at h
    have h3 : (m + 1) * (m + 1 - 1) = (m + 1) * m := by simp
    rw [h3]
    generalize hX : (m + 1) * m = X at h ⊢
    omega

theorem routeCombinations_nodup (l : List String) (hnd : l.Nodup) :
    (routeCombinations l).Nodup := by
  induction l with
  | nil => exact List.nodup_nil
  | cons s rest ih =>
    rcases List.nodup_cons.mp hnd with ⟨hs, hrest⟩
    unfold routeCombinations
    refine List.Nodup.append ?_ (ih hrest) ?_
    · exact hrest.map (fun a b hab => by injection hab)
    · intro p hp hp'
      rcases List.mem_map.mp hp with ⟨t, _, hpair⟩
      subst hpair
      exact hs (routeCombinations_mem_stations rest s t hp').1

/-- A fulfilled unit's write, read back pointwise. -/
theorem writeUnit_lookup (m : Matrices) (fromCity toCity : String)
    (si : Option (String → Option FareCell)) (st a b : String) :
    writeUnit m fromCity toCity si st a b =
      if st ∈ SEAT_TYPES ∧ a = fromCity ∧ b = toCity then
        some (match si with
              | some f => (f st).getD zeroFillCell
              | none => zeroFillCell)
      else m st a b := rfl

/-- The core population invariant of the result-processing fold: when every
unit settled as fulfilled, a cell of an enumerated seat class is present
exactly when its station pair was one of the processed units (or was already
present). -/
theorem processResults_foldl_lookup
    (items : List ((String × String) × UnitOutcome)) :
    ∀ (m0 : Matrices) (h0 : String → Bool),
    (∀ it ∈ items, it.2 ≠ UnitOutcome.rejected) →
    ∀ (st a b : String), st ∈ SEAT_TYPES →
    (((items.foldl
        (fun (acc : Matrices × (String → Bool)) item =>
          match item.2 with
          | UnitOutcome.fulfilled _ seatInfo =>
            (writeUnit acc.1 item.1.1 item.1.2 seatInfo,
             updateHasData acc.2 seatInfo)
          | UnitOutcome.rejected => acc)
        (m0, h0)).1 st a b).isSome ↔
      (m0 st a b).isSome ∨ (a, b) ∈ items.map Prod.fst) := by
  induction items with
  | nil =>
    intro m0 h0 _ st a b _
    simp
  | cons it rest ih =>
    intro m0 h0 hful st a b hst
    rcases it with ⟨⟨a', b'⟩, o⟩
    cases o with
    | rejected =>
      exact absurd rfl (hful _ (List.mem_cons_self _ _))
    | fulfilled success si =>
      rw [List.foldl_cons]
      have hrest : ∀ it ∈ rest, it.2 ≠ UnitOutcome.rejected :=
        fun it hit => hful it (List.mem_cons_of_mem _ hit)
      rw [ih _ _ hrest st a b hst]
      rw [List.map_cons]
      constructor
      · rintro (h1 | h1)
        · rw [writeUnit_lookup] at h1
          by_cases hkey : st ∈ SEAT_TYPES ∧ a = a' ∧ b = b'
          · refine Or.inr ?_
            rw [hkey.2.1, hkey.2.2]
            exact List.mem_cons_self _ _
          · rw [if_neg hkey] at h1
            exact Or.inl h1
        · exact Or.inr (List.mem_cons_of_mem _ h1)
      · rintro (h1 | h1)
        · refine Or.inl ?_
          rw [writeUnit_lookup]
          split
          · simp
          · exact h1
        · rcases List.mem_cons.mp h1 with heq | hmem
          · injection heq with ha hb
            refine Or.inl ?_
            rw [writeUnit_lookup, if_pos ⟨hst, ha, hb⟩]
            simp
          · exact Or.inr hmem

/-- Cells of seat classes outside the enumeration are never written. -/
theorem processResults_foldl_outside
    (items : List ((String × String) × UnitOutcome)) :
    ∀ (m0 : Matrices) (h0 : String → Bool) (st a b : String),
    st ∉ SEAT_TYPES →
    (items.foldl
        (fun (acc : Matrices × (String → Bool)) item =>
          match item.2 with
          | UnitOutcome.fulfilled _ seatInfo =>
            (writeUnit acc.1 item.1.1 item.1.2 seatInfo,
             updateHasData acc.2 seatInfo)
          | UnitOutcome.rejected => acc)
        (m0, h0)).1 st a b = m0 st a b := by
  induction items with
  | nil => intro m0 h0 st a b _; rfl
  | cons it rest ih =>
    intro m0 h0 st a b hst
    rcases it with ⟨⟨a', b'⟩, o⟩
    cases o with
    | rejected => exact ih m0 h0 st a b hst
    | fulfilled success si =>
      rw [List.foldl_cons]
      rw [ih _ _ st a b hst]
      rw [writeUnit_lookup, if_neg (fun hk => hst hk.1)]

/-- Under `Nodup`, an element read at index `i` has `indexOf` equal to `i`. -/
theorem indexOf_eq_of_get? {l : List String} {i : ℕ} {a : String}
    (hnd : l.Nodup) (h : l.get? i = some a) : l.indexOf a = i := by
  have hmem : a ∈ l := List.get?_mem h
  have h1 : l.get? (l.indexOf a) = some a := List.indexOf_get? hmem
  have hlt : l.indexOf a < l.length := List.indexOf_lt_length.mpr hmem
  refine List.getElem?_inj hlt hnd ?_
  rw [← List.get?_eq_getElem?, ← List.get?_eq_getElem?, h1, h]

/-- C1 (amended): when every query unit of `computeMatrix` settles as
fulfilled (success or caught failure) — i.e. no unit's promise rejects, as an
authentication-family failure would — and the computation completes, each of
the ten seat classes' matrices is populated at exactly the N·(N−1)/2 query
pairs `(stations[i], stations[j])` with `i < j`; no cell with
`originIndex ≥ destIndex` (or off the station list) is ever queried or
present.  (A unit whose promise rejects writes no cell at all; see the
counterexample.) -/
theorem c1_matrix_population (stations : List String)
    (outcomes : List UnitOutcome) (hnd : stations.Nodup)
    (hlen : (routeCombinations stations).length ≤ outcomes.length)
    (hful : ∀ o ∈ outcomes, o ≠ UnitOutcome.rejected)
    (hcomplete : (computeMatrixCore stations outcomes).isSome) :
    (∀ st ∈ SEAT_TYPES, ∀ a b : String,
      (((processResults ((routeCombinations stations).zip outcomes)).1
          st a b).isSome ↔ (a, b) ∈ routeCombinations stations)) ∧
    (∀ st a b : String,
      ((processResults ((routeCombinations stations).zip outcomes)).1
          st a b).isSome →
        a ∈ stations ∧ b ∈ stations ∧
          stations.indexOf a < stations.indexOf b) ∧
    (∀ i j : ℕ, ∀ a b : String, stations.get? i = some a →
      stations.get? j = some b →
      ((a, b) ∈ routeCombinations stations ↔ i < j)) ∧
    (routeCombinations stations).length =
      stations.length * (stations.length - 1) / 2 ∧
    (routeCombinations stations).Nodup := by
  have hful' : ∀ it ∈ (routeCombinations stations).zip outcomes,
      it.2 ≠ UnitOutcome.rejected :=
    fun it hit => hful it.2 (List.of_mem_zip hit).2
  have hmap : ((routeCombinations stations).zip outcomes).map Prod.fst =
      routeCombinations stations := List.map_fst_zip _ _ hlen
  have hmemiff : ∀ st ∈ SEAT_TYPES, ∀ a b : String,
      (((processResults ((routeCombinations stations).zip outcomes)).1
          st a b).isSome ↔ (a, b) ∈ routeCombinations stations) := by
    intro st hst a b
    have h := processResults_foldl_lookup
      ((routeCombinations stations).zip outcomes) (fun _ _ _ => none)
      (fun _ => false) hful' st a b hst
    rw [hmap] at h
    simpa using h
  refine ⟨hmemiff, ?_, ?_, routeCombinations_length stations,
    routeCombinations_nodup stations hnd⟩
  · intro st a b hsome
    by_cases hst : st ∈ SEAT_TYPES
    · have hmem := (hmemiff st hst a b).mp hsome
      rcases routeCombinations_mem_exists stations a b hmem with ⟨i, j, hij, ha, hb⟩
      refine ⟨List.get?_mem ha, List.get?_mem hb, ?_⟩
      rw [indexOf_eq_of_get? hnd ha, indexOf_eq_of_get? hnd hb]
      exact hij
    · have h := processResults_foldl_outside
        ((routeCombinations stations).zip outcomes) (fun _ _ _ => none)
        (fun _ => false) st a b hst
      have h' : ((processResults ((routeCombinations stations).zip outcomes)).1
          st a b) = none := h
      rw [h'] at hsome
      cases hsome
  · intro i j a b ha hb
    constructor
    · intro hmem
      rcases routeCombinations_mem_exists stations a b hmem with
        ⟨i', j', hij, ha', hb'⟩
      have hia := indexOf_eq_of_get? hnd ha
      have hib := indexOf_eq_of_get? hnd hb
      have hia' := indexOf_eq_of_get? hnd ha'
      have hib' := indexOf_eq_of_get? hnd hb'
      omega
    · intro hij
      exact routeCombinations_mem_of stations i j hij a b ha hb

/-- The station list of the counterexample schedule. -/
def c1CexStations : List String := ["A", "B", "C"]

/-- A realistic successful per-pair seat info: one class with one online seat. -/
def c1CexSeatInfo : String → Option FareCell :=
  buildSeatInfo [⟨"S_CHAIR", 1, 0, 50, 5⟩]

/-- Unit settlements for the three pairs (A,B), (A,C), (B,C): the (A,C) unit's
promise rejects (as it does in the source when `getSeatAvailability` throws an
authentication-family error, which the unit re-throws, part_002 lines
388-394), while the others fulfill. -/
def c1CexOutcomes : List UnitOutcome :=
  [UnitOutcome.fulfilled true (some c1CexSeatInfo),
   UnitOutcome.rejected,
   UnitOutcome.fulfilled true (some (buildSeatInfo []))]

/-- Counterexample for C1: `computeMatrix` completes successfully (the map is
`some …`), yet the `S_CHAIR` matrix has *no* cell at the valid pair (A, C) —
the rejected unit wrote no zero-filled cell, leaving a hole — while (A, B) and
(B, C) are populated.  So a completed matrix may have fewer than N·(N−1)/2
cells per class. -/
theorem c1_missing_cell_cex :
    (computeMatrixCore c1CexStations c1CexOutcomes).map
        (fun r => (r.1 "S_CHAIR" "A" "C", r.1 "S_CHAIR" "A" "B",
                   r.1 "S_CHAIR" "B" "C")) =
      some (none, some (ingestSeat ⟨"S_CHAIR", 1, 0, 50, 5⟩),
            some zeroSeatEntry) := by
  decide

/-- The two-station schedule of the C1 witness. -/
def c1WitnessStations : List String := ["A", "B"]

/-- Its single, fulfilled unit outcome. -/
def c1WitnessOutcomes : List UnitOutcome :=
  [UnitOutcome.fulfilled true (some c1CexSeatInfo)]

/-- Witness for the amended C1 at a concrete all-fulfilled run. -/
theorem c1_matrix_population_witness :
    (c1WitnessStations.Nodup ∧
     (routeCombinations c1WitnessStations).length ≤ c1WitnessOutcomes.length ∧
     (computeMatrixCore c1WitnessStations c1WitnessOutcomes).isSome) ∧
    ((processResults
        ((routeCombinations c1WitnessStations).zip c1WitnessOutcomes)).1
        "S_CHAIR" "A" "B").isSome ∧
    (routeCombinations c1WitnessStations).length =
      c1WitnessStations.length * (c1WitnessStations.length - 1) / 2 := by
  have hful : ∀ o ∈ c1WitnessOutcomes, o ≠ UnitOutcome.rejected := by
    intro o ho
    rw [c1WitnessOutcomes, List.mem_singleton] at ho
    subst ho
    exact fun h => UnitOutcome.noConfusion h
  have h := c1_matrix_population c1WitnessStations c1WitnessOutcomes
    (by decide) (by decide) hful (by decide)
  exact ⟨⟨by decide, by decide, by decide⟩,
    (h.1 "S_CHAIR" (by decide) "A" "B").mpr (by decide), h.2.2.2.1⟩

/-! ### C8: the bounded-concurrency pool -/

theorem removeAt_some_inv {ι : Type} {l : List ι} {i : ℕ} {x : ι}
    {rest : List ι} (h : removeAt l i = some (x, rest)) :
    i < l.length ∧ rest = l.eraseIdx i := by
  unfold removeAt at h
  rcases hg : l[i]? with _ | y
  · rw [hg] at h
    cases h
  · rw [hg] at h
    injection h with h'
    rcases List.getElem?_eq_some.mp hg with ⟨hlt, _⟩
    rcases Prod.mk.injEq .. ▸ h' with ⟨h1, h2⟩
    exact ⟨hlt, h2.symm⟩

theorem removeAt_eq_some {ι : Type} {l : List ι} {i : ℕ} (h : i < l.length) :
    removeAt l i = some (l[i], l.eraseIdx i) := by
  unfold removeAt
  rw [List.getElem?_eq_getElem h]

theorem removeAt_perm {ι : Type} {l : List ι} {i : ℕ} (h : i < l.length) :
    l.Perm (l[i] :: l.eraseIdx i) := by
  conv_lhs => rw [← List.take_append_drop i l]
  rw [List.drop_eq_getElem_cons h, List.eraseIdx_eq_take_drop_succ]
  exact List.perm_middle

theorem eraseIdx_length {ι : Type} {l : List ι} {i : ℕ} (h : i < l.length) :
    (l.eraseIdx i).length = l.length - 1 := by
  have := List.length_eraseIdx_add_one h
  omega

/-- Under a pool that starts at or below the cap, the settle-while-full loop
ends with fewer than `cap` units in flight (also when it throws: it had just
removed a unit from a pool of exactly `cap`). -/
theorem settleWhile_len {ι : Type} (cap : ℕ) (pick : ℕ → ℕ)
    (rejects : ι → Bool) (hcap : 0 < cap) :
    ∀ (fuel : ℕ) (infl : List ι) (k : ℕ), infl.length ≤ fuel →
      infl.length ≤ cap →
      (settleWhile cap pick rejects fuel infl k).inflight.length < cap := by
  intro fuel
  induction fuel with
  | zero =>
    intro infl k hlen hc
    have : infl.length = 0 := Nat.le_zero.mp hlen
    simpa [settleWhile, this] using hcap
  | succ fuel ih =>
    intro infl k hlen hc
    unfold settleWhile
    by_cases hfull : cap ≤ infl.length
    · rw [if_pos hfull]
      have hpos : 0 < infl.length := lt_of_lt_of_le hcap hfull
      have hidx : pick k % infl.length < infl.length := Nat.mod_lt _ hpos
      rw [removeAt_eq_some hidx]
      dsimp only
      by_cases hrej : rejects infl[pick k % infl.length] = true
      · rw [if_pos hrej]
        show (infl.eraseIdx (pick k % infl.length)).length < cap
        rw [eraseIdx_length hidx]
        omega
      · rw [if_neg hrej]
        have hlen' : (infl.eraseIdx (pick k % infl.length)).length ≤ fuel := by
          rw [eraseIdx_length hidx]
          omega
        have hc' : (infl.eraseIdx (pick k % infl.length)).length ≤ cap := by
          rw [eraseIdx_length hidx]
          omega
        exact ih _ (k + 1) hlen' hc'
    · rw [if_neg hfull]
      exact lt_of_not_le hfull

/-- The settle-while-full loop settles exactly the units it removes, whether
or not it throws. -/
theorem settleWhile_perm {ι : Type} (cap : ℕ) (pick : ℕ → ℕ)
    (rejects : ι → Bool) :
    ∀ (fuel : ℕ) (infl : List ι) (k : ℕ), infl.length ≤ fuel →
      infl.Perm ((settleWhile cap pick rejects fuel infl k).inflight ++
        (settleWhile cap pick rejects fuel infl k).settled) := by
  intro fuel
  induction fuel with
  | zero =>
    intro infl k hlen
    have h0 : infl.length = 0 := Nat.le_zero.mp hlen
    rw [List.length_eq_zero.mp h0]
    simp [settleWhile]
  | succ fuel ih =>
    intro infl k hlen
    unfold settleWhile
    by_cases hfull : cap ≤ infl.length
    · rw [if_pos hfull]
      by_cases hpos : 0 < infl.length
      · have hidx : pick k % infl.length < infl.length := Nat.mod_lt _ hpos
        rw [removeAt_eq_some hidx]
        dsimp only
        by_cases hrej : rejects infl[pick k % infl.length] = true
        · rw [if_pos hrej]
          show infl.Perm (infl.eraseIdx (pick k % infl.length) ++
            [infl[pick k % infl.length]])
          exact (removeAt_perm hidx).trans
            (List.perm_append_singleton _ _).symm
        · rw [if_neg hrej]
          have hlen' : (infl.eraseIdx (pick k % infl.length)).length ≤ fuel := by
            rw [eraseIdx_length hidx]
            omega
          have hrec := ih (infl.eraseIdx (pick k % infl.length)) (k + 1) hlen'
          refine (removeAt_perm hidx).trans ?_
          refine ((hrec.cons _).trans ?_)
          exact (List.perm_middle).symm
      · have h0 : infl.length = 0 := Nat.eq_zero_of_not_pos hpos
        rw [List.length_eq_zero.mp h0]
        simp [removeAt]
    · rw [if_neg hfull]
      simp

/-- Every size the settle loop records is below the entering in-flight count. -/
theorem settleWhile_trace {ι : Type} (cap : ℕ) (pick : ℕ → ℕ)
    (rejects : ι → Bool) :
    ∀ (fuel : ℕ) (infl : List ι) (k : ℕ),
      ∀ n ∈ (settleWhile cap pick rejects fuel infl k).trace,
        n < infl.length := by
  intro fuel
  induction fuel with
  | zero =>
    intro infl k n hn
    simp [settleWhile] at hn
  | succ fuel ih =>
    intro infl k n hn
    unfold settleWhile at hn
    by_cases hfull : cap ≤ infl.length
    · rw [if_pos hfull] at hn
      rcases hlt : removeAt infl (pick k % infl.length) with _ | ⟨x, rest⟩
      · rw [hlt] at hn
        simp at hn
      · rw [hlt] at hn
        dsimp only at hn
        rcases removeAt_some_inv hlt with ⟨hidx, hrest⟩
        by_cases hrej : rejects x = true
        · rw [if_pos hrej] at hn
          rcases List.mem_singleton.mp hn with rfl
          rw [hrest, eraseIdx_length hidx]
          omega
        · rw [if_neg hrej] at hn
          rcases List.mem_cons.mp hn with h1 | h1
          · subst h1
            rw [hrest, eraseIdx_length hidx]
            omega
          · have := ih rest (k + 1) n h1
            rw [hrest, eraseIdx_length hidx] at this
            omega
    · rw [if_neg hfull] at hn
      simp at hn

/-- When the settle loop throws, a settled unit rejected. -/
theorem settleWhile_reject {ι : Type} (cap : ℕ) (pick : ℕ → ℕ)
    (rejects : ι → Bool) :
    ∀ (fuel : ℕ) (infl : List ι) (k : ℕ),
      (settleWhile cap pick rejects fuel infl k).raceThrew = true →
      ∃ x ∈ (settleWhile cap pick rejects fuel infl k).settled,
        rejects x = true := by
  intro fuel
  induction fuel with
  | zero =>
    intro infl k h
    simp [settleWhile] at h
  | succ fuel ih =>
    intro infl k h
    unfold settleWhile at h ⊢
    by_cases hfull : cap ≤ infl.length
    · rw [if_pos hfull] at h ⊢
      rcases hlt : removeAt infl (pick k % infl.length) with _ | ⟨x, rest⟩
      · rw [hlt] at h
        simp at h
      · rw [hlt] at h
        dsimp only at h ⊢
        by_cases hrej : rejects x = true
        · rw [if_pos hrej] at h ⊢
          exact ⟨x, List.mem_singleton.mpr rfl, hrej⟩
        · rw [if_neg hrej] at h ⊢
          rcases ih rest (k + 1) h with ⟨y, hy, hyrej⟩
          exact ⟨y, List.mem_cons_of_mem _ hy, hyrej⟩
    · rw [if_neg hfull] at h
      simp at h

/-- The final drain settles every remaining unit. -/
theorem drainAll_perm {ι : Type} (pick : ℕ → ℕ) :
    ∀ (fuel : ℕ) (infl : List ι) (k : ℕ), infl.length ≤ fuel →
      infl.Perm (drainAll pick fuel infl k).1 := by
  intro fuel
  induction fuel with
  | zero =>
    intro infl k hlen
    rw [List.length_eq_zero.mp (Nat.le_zero.mp hlen)]
    simp [drainAll]
  | succ fuel ih =>
    intro infl k hlen
    unfold drainAll
    by_cases hpos : 0 < infl.length
    · have hidx : pick k % infl.length < infl.length := Nat.mod_lt _ hpos
      rw [removeAt_eq_some hidx]
      have hlen' : (infl.eraseIdx (pick k % infl.length)).length ≤ fuel := by
        rw [eraseIdx_length hidx]
        omega
      exact (removeAt_perm hidx).trans ((ih _ (k + 1) hlen').cons _)
    · rw [List.length_eq_zero.mp (Nat.eq_zero_of_not_pos hpos)]
      simp [removeAt]

/-- Every size the drain records is below the entering in-flight count. -/
theorem drainAll_trace {ι : Type} (pick : ℕ → ℕ) :
    ∀ (fuel : ℕ) (infl : List ι) (k : ℕ),
      ∀ n ∈ (drainAll pick fuel infl k).2, n < infl.length := by
  intro fuel
  induction fuel with
  | zero =>
    intro infl k n hn
    simp [drainAll] at hn
  | succ fuel ih =>
    intro infl k n hn
    unfold drainAll at hn
    by_cases hpos : 0 < infl.length
    · have hidx : pick k % infl.length < infl.length := Nat.mod_lt _ hpos
      rw [removeAt_eq_some hidx] at hn
      rcases List.mem_cons.mp hn with h1 | h1
      · subst h1
        rw [eraseIdx_length hidx]
        omega
      · have := ih _ (k + 1) n h1
        rw [eraseIdx_length hidx] at this
        omega
    · rw [List.length_eq_zero.mp (Nat.eq_zero_of_not_pos hpos)] at hn
      simp [removeAt] at hn

/-- Unfolding of the dispatch step. -/
theorem poolGo_cons {ι : Type} (cap : ℕ) (pick : ℕ → ℕ) (rejects : ι → Bool)
    (u : ι) (rest infl : List ι) (k : ℕ) :
    poolGo cap pick rejects (u :: rest) infl k =
      (if (settleWhile cap pick rejects infl.length infl k).raceThrew then
        PoolResult.aborted
          (settleWhile cap pick rejects infl.length infl k).trace
          (settleWhile cap pick rejects infl.length infl k).settled
          (settleWhile cap pick rejects infl.length infl k).inflight (u :: rest)
      else
        match poolGo cap pick rejects rest
            ((settleWhile cap pick rejects infl.length infl k).inflight ++ [u])
            (settleWhile cap pick rejects infl.length infl k).k with
        | PoolResult.ok tr st =>
            PoolResult.ok
              ((settleWhile cap pick rejects infl.length infl k).trace ++
                ((settleWhile cap pick rejects infl.length infl k).inflight ++
                  [u]).length :: tr)
              ((settleWhile cap pick rejects infl.length infl k).settled ++ st)
        | PoolResult.aborted tr st det nd =>
            PoolResult.aborted
              ((settleWhile cap pick rejects infl.length infl k).trace ++
                ((settleWhile cap pick rejects infl.length infl k).inflight ++
                  [u]).length :: tr)
              ((settleWhile cap pick rejects infl.length infl k).settled ++ st)
              det nd) := rfl

/-- Main pool invariant: starting at or below the cap, every recorded
in-flight size stays at or below the cap; a run that reaches the final
`allSettled` settles exactly the pending and in-flight units; an aborted run
partitions them into settled, detached and never-dispatched units, with the
never-dispatched list non-empty and a rejecting unit among the settled. -/
theorem poolGo_spec {ι : Type} (cap : ℕ) (pick : ℕ → ℕ) (rejects : ι → Bool)
    (hcap : 0 < cap) :
    ∀ (pending : List ι) (infl : List ι) (k : ℕ), infl.length ≤ cap →
      (∀ n ∈ (poolGo cap pick rejects pending infl k).trace, n ≤ cap) ∧
      (∀ tr st, poolGo cap pick rejects pending infl k = PoolResult.ok tr st →
        (pending ++ infl).Perm st) ∧
      (∀ tr st det nd,
        poolGo cap pick rejects pending infl k =
          PoolResult.aborted tr st det nd →
        (pending ++ infl).Perm (st ++ (det ++ nd)) ∧ nd ≠ [] ∧
        ∃ x ∈ st, rejects x = true) := by
  intro pending
  induction pending with
  | nil =>
    intro infl k hlen
    have heq : poolGo cap pick rejects [] infl k =
        PoolResult.ok (drainAll pick infl.length infl k).2
          (drainAll pick infl.length infl k).1 := rfl
    refine ⟨?_, ?_, ?_⟩
    · intro n hn
      rw [heq] at hn
      have := drainAll_trace pick infl.length infl k n hn
      omega
    · intro tr st h
      rw [heq] at h
      injection h with h1 h2
      subst h2
      simpa using drainAll_perm pick infl.length infl k le_rfl
    · intro tr st det nd h
      rw [heq] at h
      exact PoolResult.noConfusion h
  | cons u rest ih =>
    intro infl k hlen
    have hswperm := settleWhile_perm cap pick rejects infl.length infl k le_rfl
    have hswtrace := settleWhile_trace cap pick rejects infl.length infl k
    by_cases hthrew :
        (settleWhile cap pick rejects infl.length infl k).raceThrew = true
    · have heq : poolGo cap pick rejects (u :: rest) infl k =
          PoolResult.aborted
            (settleWhile cap pick rejects infl.length infl k).trace
            (settleWhile cap pick rejects infl.length infl k).settled
            (settleWhile cap pick rejects infl.length infl k).inflight
            (u :: rest) := by
        rw [poolGo_cons, if_pos hthrew]
      refine ⟨?_, ?_, ?_⟩
      · intro n hn
        rw [heq] at hn
        have := hswtrace n hn
        omega
      · intro tr st h
        rw [heq] at h
        exact PoolResult.noConfusion h
      · intro tr st det nd h
        rw [heq] at h
        injection h with h1 h2 h3 h4
        subst h2 h3 h4
        refine ⟨?_, List.cons_ne_nil _ _,
          settleWhile_reject cap pick rejects infl.length infl k hthrew⟩
        rw [← Multiset.coe_eq_coe] at hswperm ⊢
        simp only [← Multiset.coe_add, ← Multiset.cons_coe,
          ← Multiset.singleton_add, Multiset.coe_nil, add_zero] at hswperm ⊢
        rw [hswperm]
        abel
    · have hswlen := settleWhile_len cap pick rejects hcap infl.length infl k
        le_rfl hlen
      have hlen' : ((settleWhile cap pick rejects infl.length infl k).inflight
          ++ [u]).length ≤ cap := by
        rw [List.length_append, List.length_cons, List.length_nil]
        omega
      obtain ⟨ihtrace, ihok, ihabort⟩ := ih
        ((settleWhile cap pick rejects infl.length infl k).inflight ++ [u])
        (settleWhile cap pick rejects infl.length infl k).k hlen'
      rcases hres : poolGo cap pick rejects rest
          ((settleWhile cap pick rejects infl.length infl k).inflight ++ [u])
          (settleWhile cap pick rejects infl.length infl k).k with
        ⟨tr', st'⟩ | ⟨tr', st', det', nd'⟩
      · have heq : poolGo cap pick rejects (u :: rest) infl k =
            PoolResult.ok
              ((settleWhile cap pick rejects infl.length infl k).trace ++
                ((settleWhile cap pick rejects infl.length infl k).inflight ++
                  [u]).length :: tr')
              ((settleWhile cap pick rejects infl.length infl k).settled ++
                st') := by
          rw [poolGo_cons, if_neg hthrew, hres]
        have ihperm := ihok tr' st' hres
        refine ⟨?_, ?_, ?_⟩
        · intro n hn
          rw [heq] at hn
          rcases List.mem_append.mp hn with h1 | h1
          · have := hswtrace n h1
            omega
          · rcases List.mem_cons.mp h1 with h2 | h2
            · subst h2
              exact hlen'
            · have := ihtrace n (by rw [hres]; exact h2)
              exact this
        · intro tr st h
          rw [heq] at h
          injection h with h1 h2
          subst h2
          show ((u :: rest) ++ infl).Perm _
          rw [← Multiset.coe_eq_coe] at hswperm ihperm ⊢
          simp only [← Multiset.coe_add, ← Multiset.cons_coe,
            ← Multiset.singleton_add, Multiset.coe_nil, add_zero]
            at hswperm ihperm ⊢
          rw [hswperm, ← ihperm]
          abel
        · intro tr st det nd h
          rw [heq] at h
          exact PoolResult.noConfusion h
      · have heq : poolGo cap pick rejects (u :: rest) infl k =
            PoolResult.aborted
              ((settleWhile cap pick rejects infl.length infl k).trace ++
                ((settleWhile cap pick rejects infl.length infl k).inflight ++
                  [u]).length :: tr')
              ((settleWhile cap pick rejects infl.length infl k).settled ++
                st') det' nd' := by
          rw [poolGo_cons, if_neg hthrew, hres]
        obtain ⟨ihperm, ihnd, x, hx, hxrej⟩ := ihabort tr' st' det' nd' hres
        refine ⟨?_, ?_, ?_⟩
        · intro n hn
          rw [heq] at hn
          rcases List.mem_append.mp hn with h1 | h1
          · have := hswtrace n h1
            omega
          · rcases List.mem_cons.mp h1 with h2 | h2
            · subst h2
              exact hlen'
            · exact ihtrace n (by rw [hres]; exact h2)
        · intro tr st h
          rw [heq] at h
          exact PoolResult.noConfusion h
        · intro tr st det nd h
          rw [heq] at h
          injection h with h1 h2 h3 h4
          subst h2 h3 h4
          refine ⟨?_, ihnd, x, List.mem_append_right _ hx, hxrej⟩
          show ((u :: rest) ++ infl).Perm _
          rw [← Multiset.coe_eq_coe] at hswperm ihperm ⊢
          simp only [← Multiset.coe_add, ← Multiset.cons_coe,
            ← Multiset.singleton_add, Multiset.coe_nil, add_zero]
            at hswperm ihperm ⊢
          rw [hswperm]
          calc ({u} : Multiset ι) + ↑rest +
              (↑(settleWhile cap pick rejects infl.length infl k).inflight +
                ↑(settleWhile cap pick rejects infl.length infl k).settled)
              = ↑(settleWhile cap pick rejects infl.length infl k).settled +
                (↑rest +
                  (↑(settleWhile cap pick rejects
                    infl.length infl k).inflight + {u})) := by abel
            _ = ↑(settleWhile cap pick rejects infl.length infl k).settled +
                (↑st' + (↑det' + ↑nd')) := by rw [ihperm]
            _ = ↑(settleWhile cap pick rejects infl.length infl k).settled +
                ↑st' + (↑det' + ↑nd') := by abel

/-- Counterexample to C8 as claimed.  Eleven units under cap 10, where the
first dispatched unit's promise rejects (an authentication error re-thrown
at part_002 lines 387-394 — nothing to do with cancellation, and neither
loop checks for cancellation before dispatching): the pool fills with units
0–9, the dispatcher blocks at `await Promise.race` before dispatching unit
10, the rejection of unit 0 settles first, the `await` throws, and unit 10
is never dispatched: it neither settles (it is not among the settled or
detached units) nor is it skipped by any pre-dispatch cancellation check. -/
theorem c8_pool_starvation_cex :
    processWithConcurrency 10 (List.range 11) (fun _ => 0) (fun u => u == 0) =
      PoolResult.aborted [1, 2, 3, 4, 5, 6, 7, 8, 9, 10, 9] [0]
        [1, 2, 3, 4, 5, 6, 7, 8, 9] [10] ∧
    10 ∈ List.range 11 ∧
    10 ∉ ([0] : List ℕ) ∧ 10 ∉ ([1, 2, 3, 4, 5, 6, 7, 8, 9] : List ℕ) := by
  decide

/-- C8 (amended): for the bounded-concurrency executor with cap 10 running
more units than the cap, no recorded instant has more than 10 units
simultaneously unresolved.  When no dispatched unit's promise rejects — in
particular always in railwayAPI.js, whose unit closures catch every error
and fulfill — every unit eventually settles.  But in part_002 a unit can
reject (re-thrown cancellation or authentication errors), and a rejection
that settles during a full-pool `await Promise.race` makes the `await`
throw, aborting dispatch: the settled, detached and never-dispatched units
then partition the unit list, the never-dispatched list is non-empty — those
units never settle and are not skipped by any pre-dispatch cancellation
check — and a rejecting unit is among the settled. -/
theorem c8_concurrency_pool {ι : Type} (units : List ι) (rejects : ι → Bool)
    (pick : ℕ → ℕ) (hK : 10 < units.length) :
    (∀ n ∈ (processWithConcurrency 10 units pick rejects).trace, n ≤ 10) ∧
    ((∀ u ∈ units, rejects u = false) →
      ∃ tr st, processWithConcurrency 10 units pick rejects =
        PoolResult.ok tr st ∧ units.Perm st) ∧
    (∀ tr st det nd,
      processWithConcurrency 10 units pick rejects =
        PoolResult.aborted tr st det nd →
      units.Perm (st ++ (det ++ nd)) ∧ nd ≠ [] ∧
      ∃ x ∈ st, rejects x = true) := by
  obtain ⟨htrace, hok, habort⟩ :=
    poolGo_spec 10 pick rejects (by omega) units [] 0 (by simp)
  refine ⟨htrace, ?_, ?_⟩
  · intro hall
    rcases hres : processWithConcurrency 10 units pick rejects with
      ⟨tr, st⟩ | ⟨tr, st, det, nd⟩
    · refine ⟨tr, st, rfl, ?_⟩
      have := hok tr st hres
      simpa using this
    · exfalso
      obtain ⟨hperm, _, x, hx, hxrej⟩ := habort tr st det nd hres
      have hxu : x ∈ units := by
        have := hperm.mem_iff.mpr (List.mem_append_left _ hx)
        simpa using this
      rw [hall x hxu] at hxrej
      cases hxrej
  · intro tr st det nd h
    obtain ⟨hperm, hnd, hex⟩ := habort tr st det nd h
    exact ⟨by simpa using hperm, hnd, hex⟩

/-- Witness for C8: eleven units under cap 10 with the identity oracle and
no rejecting unit: the run completes and settles all units. -/
theorem c8_concurrency_pool_witness :
    10 < (List.range 11).length ∧
    (∀ n ∈ (processWithConcurrency 10 (List.range 11) (fun k => k)
      (fun _ => false)).trace, n ≤ 10) ∧
    ∃ tr st, processWithConcurrency 10 (List.range 11) (fun k => k)
        (fun _ => false) = PoolResult.ok tr st ∧ (List.range 11).Perm st := by
  have h := c8_concurrency_pool (List.range 11) (fun _ => false) (fun k => k)
    (by decide)
  exact ⟨by decide, h.1, h.2.1 (fun u _ => rfl)⟩

/-! ### C7: the all-failed error synthesis of `checkSeatAvailability` -/

theorem seatScan_mk (st : String) (o : LayoutOutcome) :
    seatScan (mkSeatTypeData st o) = diagOf o := by
  cases o with
  | ok => rfl
  | fail ei => cases ei <;> rfl

/-- Setting `error_message` does not change what the all-failed scan sees. -/
theorem seatScan_error_message (s : SeatTypeData) (m : String) :
    seatScan { s with error_message := some m } = seatScan s := rfl

theorem buildTrainDetails_scan
    (settled : List ((String × String) × LayoutOutcome))
    (t : String × List String) :
    (buildTrainDetails settled t).2.seat_data.findSome? seatScan =
      (seatDataFor settled t.1).findSome? seatScan := by
  show (match trainErrorMessage (seatDataFor settled t.1) with
        | some m => (seatDataFor settled t.1).map
            (fun (s : SeatTypeData) => { s with error_message := some m })
        | none => seatDataFor settled t.1).findSome? seatScan = _
  cases trainErrorMessage (seatDataFor settled t.1) with
  | none => rfl
  | some m =>
    rw [List.findSome?_map]
    rfl

/-- Over units that all carry the matching trip number, `seatDataFor` is just
the per-unit构 construction. -/
theorem seatDataFor_own (settled : List ((String × String) × LayoutOutcome))
    (trip : String) (hall : ∀ u ∈ settled, u.1.1 = trip) :
    seatDataFor settled trip =
      settled.map fun u => mkSeatTypeData u.1.2 u.2 := by
  induction settled with
  | nil => rfl
  | cons u rest ih =>
    unfold seatDataFor
    rw [List.filterMap_cons, if_pos (hall u (List.mem_cons_self u rest))]
    have := ih (fun v hv => hall v (List.mem_cons_of_mem u hv))
    unfold seatDataFor at this
    rw [this, List.map_cons]

/-- Over units that all carry other trip numbers, `seatDataFor` is empty. -/
theorem seatDataFor_foreign (settled : List ((String × String) × LayoutOutcome))
    (trip : String) (hall : ∀ u ∈ settled, u.1.1 ≠ trip) :
    seatDataFor settled trip = [] := by
  induction settled with
  | nil => rfl
  | cons u rest ih =>
    unfold seatDataFor
    rw [List.filterMap_cons, if_neg (hall u (List.mem_cons_self u rest))]
    have := ih (fun v hv => hall v (List.mem_cons_of_mem u hv))
    unfold seatDataFor at this
    rw [this]

theorem seatDataFor_append (s₁ s₂ : List ((String × String) × LayoutOutcome))
    (trip : String) :
    seatDataFor (s₁ ++ s₂) trip =
      seatDataFor s₁ trip ++ seatDataFor s₂ trip :=
  List.filterMap_append s₁ s₂ _

/-- Scanning a zip with a function of the second components only. -/
theorem zip_findSome?_snd {α β γ : Type} (g : β → Option γ) :
    ∀ (l₂ : List β) (l₁ : List α), l₂.length ≤ l₁.length →
      (l₁.zip l₂).findSome? (fun u => g u.2) = l₂.findSome? g := by
  intro l₂
  induction l₂ with
  | nil => intro l₁ _; simp
  | cons b bs ih =>
    intro l₁ hlen
    cases l₁ with
    | nil => simp at hlen
    | cons a as =>
      rw [List.zip_cons_cons, List.findSome?_cons, List.findSome?_cons]
      cases g b with
      | none =>
        exact ih as (by simpa using Nat.le_of_succ_le_succ (by simpa using hlen))
      | some c => rfl

/-- Requests of one train all carry its trip number. -/
theorem mem_own_requests (t : String × List String) (u : String × String)
    (hu : u ∈ t.2.map fun st => (t.1, st)) : u.1 = t.1 := by
  rcases List.mem_map.mp hu with ⟨st, _, rfl⟩
  rfl

/-- A queued request's trip number names a listed train. -/
theorem mem_allSeatRequests_fst (trains : List (String × List String))
    (u : String × String) (hu : u ∈ allSeatRequests trains) :
    u.1 ∈ trains.map Prod.fst := by
  unfold allSeatRequests at hu
  rcases List.mem_flatMap.mp hu with ⟨t, ht, hu'⟩
  rw [mem_own_requests t u hu']
  exact List.mem_map.mpr ⟨t, ht, rfl⟩

/-- The all-failed scan over the assembled per-train result equals the first
diagnosable cause over the raw unit settlements in queue order. -/
theorem scan_grouped (trains : List (String × List String)) :
    ∀ (outcomes : List LayoutOutcome),
    (trains.map Prod.fst).Nodup →
    outcomes.length = (allSeatRequests trains).length →
    ((trains.map (buildTrainDetails ((allSeatRequests trains).zip outcomes))).findSome?
        (fun t => t.2.seat_data.findSome? seatScan)) =
      firstDiagnosableCause outcomes := by
  induction trains with
  | nil =>
    intro outcomes _ hlen
    have : outcomes = [] := List.length_eq_zero.mp (by simpa [allSeatRequests] using hlen)
    subst this
    rfl
  | cons t rest ih =>
    intro outcomes hkeys hlen
    have hkt : t.1 ∉ rest.map Prod.fst := (List.nodup_cons.mp (by simpa using hkeys)).1
    have hkrest : (rest.map Prod.fst).Nodup := (List.nodup_cons.mp (by simpa using hkeys)).2
    set own : List (String × String) := t.2.map fun st => (t.1, st) with hown
    have hreq : allSeatRequests (t :: rest) = own ++ allSeatRequests rest := by
      unfold allSeatRequests
      rw [List.flatMap_cons]
    have hlen' : own.length ≤ outcomes.length := by
      rw [hlen, hreq, List.length_append]
      omega
    have htake : (outcomes.take own.length).length = own.length :=
      List.length_take_of_le hlen'
    have hsplit : (allSeatRequests (t :: rest)).zip outcomes =
        own.zip (outcomes.take own.length) ++
          (allSeatRequests rest).zip (outcomes.drop own.length) := by
      conv_lhs => rw [hreq, ← List.take_append_drop own.length outcomes]
      exact List.zip_append htake.symm
    have hdroplen : (outcomes.drop own.length).length =
        (allSeatRequests rest).length := by
      rw [List.length_drop, hlen, hreq, List.length_append]
      omega
    -- the head train's scan sees exactly the take-part outcomes
    have hownkeys : ∀ u ∈ own.zip (outcomes.take own.length), u.1.1 = t.1 :=
      fun u hu => mem_own_requests t u.1 (List.of_mem_zip hu).1
    have hforeign : ∀ u ∈ (allSeatRequests rest).zip (outcomes.drop own.length),
        u.1.1 ≠ t.1 := by
      intro u hu heq
      have := mem_allSeatRequests_fst rest u.1 (List.of_mem_zip hu).1
      rw [heq] at this
      exact hkt this
    have hheadscan :
        (seatDataFor ((allSeatRequests (t :: rest)).zip outcomes) t.1).findSome?
          seatScan = (outcomes.take own.length).findSome? diagOf := by
      rw [hsplit, seatDataFor_append, seatDataFor_foreign _ _ hforeign,
        List.append_nil, seatDataFor_own _ _ hownkeys, List.findSome?_map]
      have : (seatScan ∘ fun u : (String × String) × LayoutOutcome =>
          mkSeatTypeData u.1.2 u.2) = fun u => diagOf u.2 := by
        funext u
        exact seatScan_mk u.1.2 u.2
      rw [this]
      exact zip_findSome?_snd diagOf (outcomes.take own.length) own (le_of_eq htake)
    -- the tail trains only see the drop-part outcomes
    have htail : rest.map (buildTrainDetails ((allSeatRequests (t :: rest)).zip outcomes)) =
        rest.map (buildTrainDetails
          ((allSeatRequests rest).zip (outcomes.drop own.length))) := by
      refine List.map_congr_left ?_
      intro t' ht'
      have hne : ∀ u ∈ own.zip (outcomes.take own.length), u.1.1 ≠ t'.1 := by
        intro u hu heq
        have h1 := hownkeys u hu
        have : t'.1 ∈ rest.map Prod.fst := List.mem_map.mpr ⟨t', ht', rfl⟩
        rw [h1] at heq
        rw [← heq] at this
        exact hkt this
      unfold buildTrainDetails
      rw [hsplit, seatDataFor_append, seatDataFor_foreign _ _ hne, List.nil_append]
    rw [List.map_cons, List.findSome?_cons, buildTrainDetails_scan, hheadscan,
      htail, ih (outcomes.drop own.length) hkrest hdroplen]
    unfold firstDiagnosableCause
    conv_rhs => rw [← List.take_append_drop own.length outcomes]
    rw [List.findSome?_append]
    cases (outcomes.take own.length).findSome? diagOf with
    | none => simp [Option.or]
    | some c => simp [Option.or]

/-- C7: when every seat-layout fetch unit across every listed train fails,
`checkSeatAvailability` fails with a single synthesized message — the family
of the first diagnosable cause found (ticket window not open yet, in-progress
purchase, active reservation, order-limit breach) or the generic fallback —
instead of returning the all-empty per-train result map. -/
theorem c7_all_failed (trains : List (String × List String))
    (outcomes : List LayoutOutcome)
    (hkeys : (trains.map Prod.fst).Nodup)
    (htr : trains ≠ [])
    (hlen : outcomes.length = (allSeatRequests trains).length)
    (hfail : ∀ o ∈ outcomes, ∃ ei, o = LayoutOutcome.fail ei) :
    checkSeatAvailabilityCore trains outcomes =
      Except.error ((firstDiagnosableCause outcomes).getD FailCause.generic) := by
  have hall : ((allSeatRequests trains).zip outcomes).all
      (fun u => match u.2 with
                | LayoutOutcome.ok => false
                | LayoutOutcome.fail _ => true) = true := by
    rw [List.all_eq_true]
    intro u hu
    rcases hfail u.2 (List.of_mem_zip hu).2 with ⟨ei, hei⟩
    rw [hei]
  have hpos : trains.length > 0 := List.length_pos.mpr htr
  unfold checkSeatAvailabilityCore
  rw [if_pos ⟨hall, hpos⟩, scan_grouped trains outcomes hkeys hlen]

/-- Two trains with three seat-layout units for the C7 witness. -/
def c7Trains : List (String × List String) :=
  [("775", ["S_CHAIR", "SHOVAN"]), ("776", ["S_CHAIR"])]

/-- All three units fail: a non-422 failure, then an in-progress 422, then an
order-limit 422. -/
def c7Outcomes : List LayoutOutcome :=
  [LayoutOutcome.fail none,
   LayoutOutcome.fail (some ⟨"Your purchase process is on-going for 2 minute 30 seconds", ""⟩),
   LayoutOutcome.fail (some ⟨"limit", "OrderLimitExceeded"⟩)]

/-- Witness for C7: with every unit failed, the call errors with the first
diagnosable cause — here the in-progress purchase of the second unit. -/
theorem c7_all_failed_witness :
    ((c7Trains.map Prod.fst).Nodup ∧ c7Trains ≠ [] ∧
     c7Outcomes.length = (allSeatRequests c7Trains).length) ∧
    checkSeatAvailabilityCore c7Trains c7Outcomes =
      Except.error ((firstDiagnosableCause c7Outcomes).getD FailCause.generic) ∧
    firstDiagnosableCause c7Outcomes = some FailCause.ongoingPurchase := by
  have hfail : ∀ o ∈ c7Outcomes, ∃ ei, o = LayoutOutcome.fail ei := by
    intro o ho
    simp only [c7Outcomes, List.mem_cons, List.not_mem_nil, or_false] at ho
    rcases ho with rfl | rfl | rfl
    · exact ⟨none, rfl⟩
    · exact ⟨_, rfl⟩
    · exact ⟨_, rfl⟩
  refine ⟨⟨by decide, by decide, by decide⟩, ?_, by decide⟩
  exact c7_all_failed c7Trains c7Outcomes (by decide) (by decide) (by decide) hfail

/-! ### C6: the single-class breadth-first search `findSegmentedRoutes`

The search graph: an edge `a → b` for class `st` exists when `b` sits at a
station index strictly greater than `indexOf(a)` and the cell `(st, a, b)` is
present with a positive online count — exactly the pushes of the source's
inner `for` loop. -/

/-- One available edge of the class-`st` search graph. -/
def SegEdge (md : MatrixData) (st a b : String) : Prop :=
  ∃ i : ℕ, i < md.stations.length ∧ md.stations.get? i = some b ∧
    (i : ℤ) > jsIndexOf md.stations a ∧
    ∃ cell, md.fareMatrices st a b = some cell ∧ 0 < cell.online

/-- A chain of `n` available edges from `a` to `c`. -/
inductive PathTo (md : MatrixData) (st : String) : String → String → ℕ → Prop
  | refl (a : String) : PathTo md st a a 0
  | step {a b c : String} {n : ℕ} :
      SegEdge md st a b → PathTo md st b c n → PathTo md st a c (n + 1)

/-- The segments of a composed route form a contiguous chain of available
edges, each segment built by `mkSegment` from the edge's cell. -/
inductive ChainSegs (md : MatrixData) (st : String) :
    String → String → List RouteSegment → Prop
  | nil (a : String) : ChainSegs md st a a []
  | cons {a b c : String} {segs : List RouteSegment} {i : ℕ} {cell : FareCell} :
      i < md.stations.length → md.stations.get? i = some b →
      (i : ℤ) > jsIndexOf md.stations a →
      md.fareMatrices st a b = some cell → 0 < cell.online →
      ChainSegs md st b c segs →
      ChainSegs md st a c (mkSegment md a b st cell :: segs)

/-- Total fare of a list of segments. -/
def sumTotals (segs : List RouteSegment) : ℤ := (segs.map (·.total)).sum

theorem sumTotals_append_single (p : List RouteSegment) (s : RouteSegment) :
    sumTotals (p ++ [s]) = sumTotals p + s.total := by
  simp [sumTotals]

theorem chainSegs_snoc {md : MatrixData} {st a b : String}
    {p : List RouteSegment} (h : ChainSegs md st a b p) :
    ∀ {c : String} {i : ℕ} {cell : FareCell}, i < md.stations.length →
      md.stations.get? i = some c → (i : ℤ) > jsIndexOf md.stations b →
      md.fareMatrices st b c = some cell → 0 < cell.online →
      ChainSegs md st a c (p ++ [mkSegment md b c st cell]) := by
  induction h with
  | nil a =>
    intro c i cell hi hget hidx hcell hon
    exact ChainSegs.cons hi hget hidx hcell hon (ChainSegs.nil c)
  | cons hi hget hidx hcell hon _ ih =>
    intro c i' cell' hi' hget' hidx' hcell' hon'
    exact ChainSegs.cons hi hget hidx hcell hon (ih hi' hget' hidx' hcell' hon')

theorem chainSegs_pathTo {md : MatrixData} {st a b : String}
    {p : List RouteSegment} (h : ChainSegs md st a b p) :
    PathTo md st a b p.length := by
  induction h with
  | nil a => exact PathTo.refl a
  | cons hi hget hidx hcell hon _ ih =>
    exact PathTo.step ⟨_, hi, hget, hidx, _, hcell, hon⟩ ih

theorem pathTo_append_edge {md : MatrixData} {st a b : String} {n : ℕ}
    (h : PathTo md st a b n) :
    ∀ {c : String}, SegEdge md st b c → PathTo md st a c (n + 1) := by
  induction h with
  | refl a => exact fun he => PathTo.step he (PathTo.refl _)
  | step he _ ih => exact fun he' => PathTo.step he (ih he')

/-- A path of length `n + 1` decomposes as a path of length `n` plus a final
edge. -/
theorem pathTo_succ {md : MatrixData} {st : String} :
    ∀ {n : ℕ} {a c : String}, PathTo md st a c (n + 1) →
      ∃ b, PathTo md st a b n ∧ SegEdge md st b c := by
  intro n
  induction n with
  | zero =>
    intro a c h
    cases h with
    | step he htail =>
      cases htail with
      | refl => exact ⟨a, PathTo.refl a, he⟩
  | succ n ih =>
    intro a c h
    cases h with
    | step he htail =>
      rcases ih htail with ⟨u, hu, hue⟩
      exact ⟨u, PathTo.step he hu, hue⟩

/-- If a set of stations contains the origin, excludes the destination and is
closed under available edges, no chain reaches the destination. -/
theorem no_path_of_closed {md : MatrixData} {st origin destination : String}
    {visited : List String}
    (horig : origin ∈ visited) (hdest : destination ∉ visited)
    (hclosed : ∀ v ∈ visited, ∀ w, SegEdge md st v w → w ∈ visited) :
    ∀ n, ¬ PathTo md st origin destination n := by
  have key : ∀ n (a : String), a ∈ visited →
      PathTo md st a destination n → False := by
    intro n
    induction n with
    | zero =>
      intro a ha h
      cases h
      exact hdest ha
    | succ n ih =>
      intro a ha h
      cases h with
      | step he htail =>
        exact ih _ (hclosed a ha _ he) htail
  exact fun n h => key n origin horig h

/-- Membership characterisation of the single-class pushes. -/
theorem mem_segPushes {md : MatrixData} {st a : String} {e e' : BfsEntry} :
    e' ∈ segPushes md st a e ↔
      ∃ i : ℕ, i < md.stations.length ∧ (i : ℤ) > jsIndexOf md.stations a ∧
        ∃ b, md.stations.get? i = some b ∧
        ∃ cell, md.fareMatrices st a b = some cell ∧ 0 < cell.online ∧
        e' = { station := b, path := e.path ++ [mkSegment md a b st cell],
               fare := e.fare + (mkSegment md a b st cell).total } := by
  unfold segPushes
  rw [List.mem_filterMap]
  constructor
  · rintro ⟨i, hir, hsome⟩
    rw [List.mem_range] at hir
    refine ⟨i, hir, ?_⟩
    by_cases hidx : (i : ℤ) > jsIndexOf md.stations a
    · rw [if_pos hidx] at hsome
      rcases hget : md.stations.get? i with _ | b
      · rw [hget] at hsome
        cases hsome
      · rw [hget] at hsome
        dsimp only at hsome
        rcases hcell : md.fareMatrices st a b with _ | cell
        · rw [hcell] at hsome
          cases hsome
        · rw [hcell] at hsome
          dsimp only at hsome
          by_cases hon : 0 < cell.online
          · rw [if_pos hon] at hsome
            injection hsome with h'
            exact ⟨hidx, b, rfl, cell, hcell, hon, h'.symm⟩
          · rw [if_neg hon] at hsome
            cases hsome
    · rw [if_neg hidx] at hsome
      cases hsome
  · rintro ⟨i, hir, hidx, b, hget, cell, hcell, hon, he'⟩
    refine ⟨i, List.mem_range.mpr hir, ?_⟩
    rw [if_pos hidx, hget]
    dsimp only
    rw [hcell]
    dsimp only
    rw [if_pos hon, he']

/-- Every entry the pushes produce extends the popped path by one segment. -/
theorem segPushes_length {md : MatrixData} {st a : String} {e e' : BfsEntry}
    (h : e' ∈ segPushes md st a e) :
    e'.path.length = e.path.length + 1 := by
  rcases mem_segPushes.mp h with ⟨i, _, _, b, _, cell, _, _, rfl⟩
  simp

/-- An available edge out of `a` yields a push with that edge's endpoint. -/
theorem segPushes_of_edge {md : MatrixData} {st a w : String} (e : BfsEntry)
    (he : SegEdge md st a w) :
    ∃ e' ∈ segPushes md st a e, e'.station = w ∧
      e'.path.length = e.path.length + 1 := by
  rcases he with ⟨i, hi, hget, hidx, cell, hcell, hon⟩
  refine ⟨{ station := w, path := e.path ++ [mkSegment md a w st cell],
            fare := e.fare + (mkSegment md a w st cell).total },
    mem_segPushes.mpr ⟨i, hi, hidx, w, hget, cell, hcell, hon, rfl⟩, rfl, by simp⟩

/-- `dropVisited` decomposes the queue into a visited prefix, the first
unvisited entry and the rest. -/
theorem dropVisited_some {visited : List String} :
    ∀ {queue e rest}, dropVisited visited queue = some (e, rest) →
      ∃ pre, queue = pre ++ e :: rest ∧ (∀ x ∈ pre, x.station ∈ visited) ∧
        e.station ∉ visited := by
  intro queue
  induction queue with
  | nil => intro e rest h; cases h
  | cons q qs ih =>
    intro e rest h
    unfold dropVisited at h
    by_cases hq : q.station ∈ visited
    · rw [if_pos hq] at h
      rcases ih h with ⟨pre, hpre, hvis, hnv⟩
      exact ⟨q :: pre, by rw [hpre]; rfl,
        fun x hx => by
          rcases List.mem_cons.mp hx with rfl | hx'
          · exact hq
          · exact hvis x hx', hnv⟩
    · rw [if_neg hq] at h
      injection h with h'
      rcases Prod.mk.injEq .. ▸ h' with ⟨h1, h2⟩
      subst h1 h2
      exact ⟨[], rfl, fun x hx => absurd hx (List.not_mem_nil x), hq⟩

/-- When `dropVisited` finds nothing, every queued station is visited. -/
theorem dropVisited_none {visited : List String} :
    ∀ {queue}, dropVisited visited queue = none →
      ∀ x ∈ queue, x.station ∈ visited := by
  intro queue
  induction queue with
  | nil => intro _ x hx; cases hx
  | cons q qs ih =>
    intro h x hx
    unfold dropVisited at h
    by_cases hq : q.station ∈ visited
    · rw [if_pos hq] at h
      rcases List.mem_cons.mp hx with rfl | hx'
      · exact hq
      · exact ih h x hx'
    · rw [if_neg hq] at h
      cases h

theorem sorted_middle_le {pre rest : List BfsEntry} {e x : BfsEntry}
    (hs : List.Sorted (· ≤ ·) ((pre ++ e :: rest).map (·.path.length)))
    (hx : x ∈ rest) : e.path.length ≤ x.path.length := by
  rw [List.map_append, List.map_cons] at hs
  have hs' : List.Pairwise (· ≤ ·)
      (pre.map (·.path.length) ++ e.path.length :: rest.map (·.path.length)) := hs
  have h2 := (List.pairwise_append.mp hs').2.1
  exact (List.pairwise_cons.mp h2).1 _ (List.mem_map.mpr ⟨x, hx, rfl⟩)

/-- The breadth-first-search loop invariant of `segGo`.  `dv` is a ghost
record of the depth at which each visited station was popped. -/
structure BfsInv (md : MatrixData) (st origin destination : String)
    (queue : List BfsEntry) (visited : List String) (dv : String → ℕ) :
    Prop where
  entries_wf : ∀ e ∈ queue, ChainSegs md st origin e.station e.path ∧
    e.fare = sumTotals e.path
  entries_mem : ∀ e ∈ queue, e.station ∈ origin :: md.stations
  visited_mem : ∀ v ∈ visited, v ∈ origin :: md.stations
  dest_not_visited : destination ∉ visited
  origin_cover : origin ∈ visited ∨
    ∃ e ∈ queue, e.station = origin ∧ e.path.length = 0
  closure : ∀ v ∈ visited, ∀ w, SegEdge md st v w →
    w ∈ visited ∨ ∃ e ∈ queue, e.station = w ∧ e.path.length ≤ dv v + 1
  dv_le : ∀ v ∈ visited, ∀ e ∈ queue, dv v ≤ e.path.length
  dv_min : ∀ v ∈ visited, ∀ n, PathTo md st origin v n → dv v ≤ n
  sorted : List.Sorted (· ≤ ·) (queue.map (·.path.length))
  spread : ∀ x ∈ queue.map (·.path.length), ∀ y ∈ queue.map (·.path.length),
    x ≤ y + 1

/-- First-pop minimality: the depth of the first unvisited queue entry is a
lower bound on the length of every chain from the origin to any unvisited
station. -/
theorem first_unvisited_min {md : MatrixData} {st origin destination : String}
    {queue : List BfsEntry} {visited : List String} {dv : String → ℕ}
    (inv : BfsInv md st origin destination queue visited dv)
    {e : BfsEntry} {rest : List BfsEntry}
    (hdrop : dropVisited visited queue = some (e, rest)) :
    ∀ (k : ℕ) (s : String), s ∉ visited → PathTo md st origin s k →
      e.path.length ≤ k := by
  obtain ⟨pre, hq, hprevis, henv⟩ := dropVisited_some hdrop
  have hle_queue : ∀ x ∈ queue, x.station ∉ visited →
      e.path.length ≤ x.path.length := by
    intro x hx hxnv
    rw [hq] at hx
    rcases List.mem_append.mp hx with h1 | h1
    · exact absurd (hprevis x h1) hxnv
    · rcases List.mem_cons.mp h1 with rfl | h2
      · exact le_rfl
      · exact sorted_middle_le (hq ▸ inv.sorted) h2
  intro k
  induction k with
  | zero =>
    intro s hs hpath
    cases hpath
    rcases inv.origin_cover with h1 | ⟨e0, he0, hst, hlen⟩
    · exact absurd h1 hs
    · have := hle_queue e0 he0 (by rw [hst]; exact hs)
      omega
  | succ k ih =>
    intro s hs hpath
    rcases pathTo_succ hpath with ⟨u, hu, hedge⟩
    by_cases huv : u ∈ visited
    · rcases inv.closure u huv s hedge with h1 | ⟨e1, he1, hst1, hlen1⟩
      · exact absurd h1 hs
      · have h2 := hle_queue e1 he1 (by rw [hst1]; exact hs)
        have h3 := inv.dv_min u huv k hu
        omega
    · have := ih u huv hu
      omega

theorem pairwise_le_of_all_eq {l : List ℕ} {c : ℕ} (h : ∀ x ∈ l, x = c) :
    List.Pairwise (· ≤ ·) l := by
  induction l with
  | nil => exact List.Pairwise.nil
  | cons a l ih =>
    refine List.Pairwise.cons ?_ (ih fun x hx => h x (List.mem_cons_of_mem a hx))
    intro b hb
    rw [h a (List.mem_cons_self a l), h b (List.mem_cons_of_mem a hb)]

/-- Preservation: popping the first unvisited entry (not the destination) and
pushing its neighbours preserves the invariant, recording the popped depth. -/
theorem bfsInv_step {md : MatrixData} {st origin destination : String}
    {queue : List BfsEntry} {visited : List String} {dv : String → ℕ}
    (inv : BfsInv md st origin destination queue visited dv)
    {e : BfsEntry} {rest : List BfsEntry}
    (hdrop : dropVisited visited queue = some (e, rest))
    (hne : e.station ≠ destination) :
    BfsInv md st origin destination (rest ++ segPushes md st e.station e)
      (e.station :: visited)
      (fun v => if v = e.station then e.path.length else dv v) := by
  obtain ⟨pre, hq, hprevis, henv⟩ := dropVisited_some hdrop
  have he_mem : e ∈ queue := by
    rw [hq]
    exact List.mem_append_right _ (List.mem_cons_self _ _)
  have he_wf := inv.entries_wf e he_mem
  have he_len_mem : e.path.length ∈ queue.map (·.path.length) :=
    List.mem_map.mpr ⟨e, he_mem, rfl⟩
  have hrest_sub : ∀ x ∈ rest, x ∈ queue := by
    intro x hx
    rw [hq]
    exact List.mem_append_right _ (List.mem_cons_of_mem _ hx)
  have he_le_rest : ∀ x ∈ rest, e.path.length ≤ x.path.length :=
    fun x hx => sorted_middle_le (hq ▸ inv.sorted) hx
  have hpush_len : ∀ p ∈ segPushes md st e.station e,
      p.path.length = e.path.length + 1 := fun p hp => segPushes_length hp
  refine ⟨?_, ?_, ?_, ?_, ?_, ?_, ?_, ?_, ?_, ?_⟩
  · -- entries_wf
    intro x hx
    rcases List.mem_append.mp hx with h1 | h1
    · exact inv.entries_wf x (hrest_sub x h1)
    · rcases mem_segPushes.mp h1 with ⟨i, hi, hidx, b, hget, cell, hcell, hon, rfl⟩
      constructor
      · exact chainSegs_snoc he_wf.1 hi hget hidx hcell hon
      · show e.fare + (mkSegment md e.station b st cell).total = _
        rw [he_wf.2, sumTotals_append_single]
  · -- entries_mem
    intro x hx
    rcases List.mem_append.mp hx with h1 | h1
    · exact inv.entries_mem x (hrest_sub x h1)
    · rcases mem_segPushes.mp h1 with ⟨i, hi, hidx, b, hget, cell, hcell, hon, rfl⟩
      exact List.mem_cons_of_mem _ (List.get?_mem hget)
  · -- visited_mem
    intro v hv
    rcases List.mem_cons.mp hv with rfl | hv'
    · exact inv.entries_mem e he_mem
    · exact inv.visited_mem v hv'
  · -- dest_not_visited
    intro hd
    rcases List.mem_cons.mp hd with h1 | h1
    · exact hne h1.symm
    · exact inv.dest_not_visited h1
  · -- origin_cover
    rcases inv.origin_cover with h1 | ⟨e0, he0, hst, hlen⟩
    · exact Or.inl (List.mem_cons_of_mem _ h1)
    · rw [hq] at he0
      rcases List.mem_append.mp he0 with h2 | h2
      · exact Or.inl (List.mem_cons_of_mem _ (hst ▸ hprevis e0 h2))
      · rcases List.mem_cons.mp h2 with rfl | h3
        · exact Or.inl (hst ▸ List.mem_cons_self _ _)
        · exact Or.inr ⟨e0, List.mem_append_left _ h3, hst, hlen⟩
  · -- closure
    intro v hv w hedge
    rcases List.mem_cons.mp hv with rfl | hv'
    · rcases segPushes_of_edge e hedge with ⟨p, hp, hstat, hlen⟩
      refine Or.inr ⟨p, List.mem_append_right _ hp, hstat, ?_⟩
      rw [hlen, if_pos rfl]
    · rcases inv.closure v hv' w hedge with h1 | ⟨e1, he1, hst1, hlen1⟩
      · exact Or.inl (List.mem_cons_of_mem _ h1)
      · rw [hq] at he1
        rcases List.mem_append.mp he1 with h2 | h2
        · exact Or.inl (List.mem_cons_of_mem _ (hst1 ▸ hprevis e1 h2))
        · rcases List.mem_cons.mp h2 with rfl | h3
          · exact Or.inl (hst1 ▸ List.mem_cons_self _ _)
          · refine Or.inr ⟨e1, List.mem_append_left _ h3, hst1, ?_⟩
            have hvne : v ≠ e.station := fun h => henv (h ▸ hv')
            rw [if_neg hvne]
            exact hlen1
  · -- dv_le
    intro v hv x hx
    rcases List.mem_cons.mp hv with rfl | hv'
    · rw [if_pos rfl]
      rcases List.mem_append.mp hx with h1 | h1
      · exact he_le_rest x h1
      · rw [hpush_len x h1]
        omega
    · have hvne : v ≠ e.station := fun h => henv (h ▸ hv')
      rw [if_neg hvne]
      rcases List.mem_append.mp hx with h1 | h1
      · exact inv.dv_le v hv' x (hrest_sub x h1)
      · rw [hpush_len x h1]
        have := inv.dv_le v hv' e he_mem
        omega
  · -- dv_min
    intro v hv n hp
    rcases List.mem_cons.mp hv with rfl | hv'
    · rw [if_pos rfl]
      exact first_unvisited_min inv hdrop n e.station henv hp
    · have hvne : v ≠ e.station := fun h => henv (h ▸ hv')
      rw [if_neg hvne]
      exact inv.dv_min v hv' n hp
  · -- sorted
    show List.Sorted (· ≤ ·) ((rest ++ segPushes md st e.station e).map (·.path.length))
    rw [List.map_append]
    refine List.pairwise_append.mpr ⟨?_, ?_, ?_⟩
    · have hs : List.Pairwise (· ≤ ·)
          (pre.map (·.path.length) ++
            e.path.length :: rest.map (·.path.length)) := by
        have := inv.sorted
        rw [hq, List.map_append, List.map_cons] at this
        exact this
      exact (List.pairwise_cons.mp (List.pairwise_append.mp hs).2.1).2
    · refine pairwise_le_of_all_eq (c := e.path.length + 1) ?_
      intro x hx
      rcases List.mem_map.mp hx with ⟨p, hp, rfl⟩
      exact hpush_len p hp
    · intro x hx y hy
      rcases List.mem_map.mp hx with ⟨px, hpx, rfl⟩
      rcases List.mem_map.mp hy with ⟨py, hpy, rfl⟩
      rw [hpush_len py hpy]
      have := inv.spread px.path.length
        (List.mem_map.mpr ⟨px, hrest_sub px hpx, rfl⟩) e.path.length he_len_mem
      omega
  · -- spread
    intro x hx y hy
    rw [List.map_append] at hx hy
    have hcase : ∀ z, z ∈ rest.map (·.path.length) ++
        (segPushes md st e.station e).map (·.path.length) →
        z ∈ queue.map (·.path.length) ∨ z = e.path.length + 1 := by
      intro z hz
      rcases List.mem_append.mp hz with h1 | h1
      · rcases List.mem_map.mp h1 with ⟨p, hp, rfl⟩
        exact Or.inl (List.mem_map.mpr ⟨p, hrest_sub p hp, rfl⟩)
      · rcases List.mem_map.mp h1 with ⟨p, hp, rfl⟩
        exact Or.inr (hpush_len p hp)
    have hrest_le : ∀ z ∈ queue.map (·.path.length), z ≤ e.path.length + 1 :=
      fun z hz => inv.spread z hz e.path.length he_len_mem
    have he_le_all : ∀ z ∈ queue.map (·.path.length),
        z ∈ rest.map (·.path.length) → e.path.length ≤ z := by
      intro z _ hz
      rcases List.mem_map.mp hz with ⟨p, hp, rfl⟩
      exact he_le_rest p hp
    rcases hcase x hx with h1 | h1 <;> rcases hcase y hy with h2 | h2
    · exact inv.spread x h1 y h2
    · have := hrest_le x h1
      omega
    · subst h1
      rcases List.mem_append.mp hy with h3 | h3
      · rcases List.mem_map.mp h3 with ⟨p, hp, rfl⟩
        have := he_le_rest p hp
        omega
      · rcases List.mem_map.mp h3 with ⟨p, hp, rfl⟩
        rw [hpush_len p hp]
        omega
    · omega

/-- Master induction for the BFS loop: under the invariant and with fuel at
least the number of reachable-but-unvisited stations, `segGo` returns `none`
exactly when no chain of available edges reaches the destination, and any
returned route is a segment-count-minimal chain whose fare is the sum of its
segments' totals. -/
theorem segGo_master {md : MatrixData} {st origin destination : String} :
    ∀ (fuel : ℕ) {queue : List BfsEntry} {visited : List String}
      {dv : String → ℕ},
      BfsInv md st origin destination queue visited dv →
      ((origin :: md.stations).dedup.filter
        (fun x => x ∉ visited)).length ≤ fuel →
      (segGo md destination st fuel queue visited = none →
        ∀ n, ¬ PathTo md st origin destination n) ∧
      (∀ r, segGo md destination st fuel queue visited = some r →
        r.rtype = "SEGMENTED" ∧ r.seatType = some st ∧
        ChainSegs md st origin destination r.segments ∧
        r.totalFare = sumTotals r.segments ∧
        ∀ n, PathTo md st origin destination n → r.segments.length ≤ n) := by
  intro fuel
  induction fuel with
  | zero =>
    intro queue visited dv inv hlen
    have hfe : ((origin :: md.stations).dedup.filter
        (fun x => x ∉ visited)) = [] :=
      List.length_eq_zero.mp (Nat.le_zero.mp hlen)
    have hall : ∀ x ∈ origin :: md.stations, x ∈ visited := by
      intro x hx
      by_contra hxv
      have hmem : x ∈ ((origin :: md.stations).dedup.filter
          (fun x => x ∉ visited)) :=
        List.mem_filter.mpr ⟨List.mem_dedup.mpr hx, by
          simp only [decide_eq_true_eq]
          exact hxv⟩
      rw [hfe] at hmem
      cases hmem
    have horig : origin ∈ visited := hall origin (List.mem_cons_self _ _)
    have hclosed : ∀ v ∈ visited, ∀ w, SegEdge md st v w → w ∈ visited := by
      rintro v _ w ⟨i, _, hget, _, _⟩
      exact hall w (List.mem_cons_of_mem _ (List.get?_mem hget))
    refine ⟨fun _ => no_path_of_closed horig inv.dest_not_visited hclosed, ?_⟩
    intro r hr
    exact Option.noConfusion hr
  | succ fuel ih =>
    intro queue visited dv inv hlen
    have hstep : segGo md destination st (fuel + 1) queue visited =
        match dropVisited visited queue with
        | none => none
        | some (e, rest) =>
          if e.station = destination then
            some { rtype := "SEGMENTED", seatType := some st,
                   segments := e.path, totalFare := e.fare }
          else
            segGo md destination st fuel
              (rest ++ segPushes md st e.station e) (e.station :: visited) :=
      rfl
    rcases hd : dropVisited visited queue with _ | ⟨e, rest⟩
    · have horig : origin ∈ visited := by
        rcases inv.origin_cover with h | ⟨e0, he0, hst, _⟩
        · exact h
        · exact hst ▸ dropVisited_none hd e0 he0
      have hclosed : ∀ v ∈ visited, ∀ w, SegEdge md st v w → w ∈ visited := by
        intro v hv w hedge
        rcases inv.closure v hv w hedge with h | ⟨e0, he0, hst, _⟩
        · exact h
        · exact hst ▸ dropVisited_none hd e0 he0
      refine ⟨fun _ => no_path_of_closed horig inv.dest_not_visited hclosed, ?_⟩
      intro r hr
      rw [hstep, hd] at hr
      exact Option.noConfusion hr
    · obtain ⟨pre, hq, hprevis, henv⟩ := dropVisited_some hd
      have he_mem : e ∈ queue := by
        rw [hq]
        exact List.mem_append_right _ (List.mem_cons_self _ _)
      by_cases hdest : e.station = destination
      · have hwf := inv.entries_wf e he_mem
        have hres : segGo md destination st (fuel + 1) queue visited =
            some { rtype := "SEGMENTED", seatType := some st,
                   segments := e.path, totalFare := e.fare } := by
          rw [hstep, hd]
          dsimp only
          rw [if_pos hdest]
        constructor
        · intro hnone
          rw [hres] at hnone
          exact Option.noConfusion hnone
        · intro r hr
          rw [hres] at hr
          injection hr with hr
          subst hr
          refine ⟨rfl, rfl, hdest ▸ hwf.1, hwf.2, ?_⟩
          intro n hp
          exact first_unvisited_min inv hd n destination
            inv.dest_not_visited hp
      · have hres : segGo md destination st (fuel + 1) queue visited =
            segGo md destination st fuel
              (rest ++ segPushes md st e.station e) (e.station :: visited) := by
          rw [hstep, hd]
          dsimp only
          rw [if_neg hdest]
        have inv' := bfsInv_step inv hd hdest
        have hes_dedup : e.station ∈ (origin :: md.stations).dedup :=
          List.mem_dedup.mpr (inv.entries_mem e he_mem)
        have hsub : List.Sublist
            ((origin :: md.stations).dedup.filter
              (fun x => x ∉ e.station :: visited))
            ((origin :: md.stations).dedup.filter (fun x => x ∉ visited)) := by
          apply List.monotone_filter_right
          intro a ha
          simp only [decide_eq_true_eq] at ha ⊢
          exact fun hv => ha (List.mem_cons_of_mem _ hv)
        have hmem_old : e.station ∈ ((origin :: md.stations).dedup.filter
            (fun x => x ∉ visited)) :=
          List.mem_filter.mpr ⟨hes_dedup, by
            simp only [decide_eq_true_eq]
            exact henv⟩
        have hnot_new : e.station ∉ ((origin :: md.stations).dedup.filter
            (fun x => x ∉ e.station :: visited)) := by
          intro hmem
          have := (List.mem_filter.mp hmem).2
          simp only [decide_eq_true_eq] at this
          exact this (List.mem_cons_self _ _)
        have hlt : ((origin :: md.stations).dedup.filter
              (fun x => x ∉ e.station :: visited)).length <
            ((origin :: md.stations).dedup.filter
              (fun x => x ∉ visited)).length := by
          rcases Nat.lt_or_ge ((origin :: md.stations).dedup.filter
              (fun x => x ∉ e.station :: visited)).length
              ((origin :: md.stations).dedup.filter
              (fun x => x ∉ visited)).length with h | h
          · exact h
          · exfalso
            have heq := hsub.eq_of_length (le_antisymm hsub.length_le h)
            rw [heq] at hnot_new
            exact hnot_new hmem_old
        have hlen' : ((origin :: md.stations).dedup.filter
            (fun x => x ∉ e.station :: visited)).length ≤ fuel := by
          omega
        have hrec := ih inv' hlen'
        rw [hres]
        exact hrec

/-- The invariant holds at the entry point of the search. -/
theorem bfsInv_init (md : MatrixData) (st origin destination : String) :
    BfsInv md st origin destination
      [{ station := origin, path := [], fare := 0 }] [] (fun _ => 0) := by
  refine ⟨?_, ?_, ?_, ?_, ?_, ?_, ?_, ?_, ?_, ?_⟩
  · intro e he
    rcases List.mem_singleton.mp he with rfl
    exact ⟨ChainSegs.nil origin, rfl⟩
  · intro e he
    rcases List.mem_singleton.mp he with rfl
    exact List.mem_cons_self _ _
  · intro v hv
    cases hv
  · exact List.not_mem_nil _
  · exact Or.inr ⟨_, List.mem_singleton.mpr rfl, rfl, rfl⟩
  · intro v hv
    cases hv
  · intro v hv
    cases hv
  · intro v hv
    cases hv
  · exact List.sorted_singleton _
  · intro x hx y hy
    have hx0 : x = 0 := by simpa using hx
    omega

/-- **C6.** `findSegmentedRoutes` is a breadth-first search whose edges are
the cells with `online > 0` for the given class toward strictly higher
station indices: it returns `null` exactly when no chain of available edges
connects origin to destination, and any returned route is a SEGMENTED route
for that class whose segments form such a chain, whose total fare is the sum
of its segments' totals, and whose segment count is minimal among all chains
reaching the destination. -/
theorem c6_find_segmented (md : MatrixData) (origin destination st : String) :
    (findSegmentedRoutes md origin destination st = none →
      ∀ n, ¬ PathTo md st origin destination n) ∧
    (∀ r, findSegmentedRoutes md origin destination st = some r →
      r.rtype = "SEGMENTED" ∧ r.seatType = some st ∧
      ChainSegs md st origin destination r.segments ∧
      r.totalFare = sumTotals r.segments ∧
      ∀ n, PathTo md st origin destination n → r.segments.length ≤ n) := by
  have hinit_len : ((origin :: md.stations).dedup.filter
      (fun x => x ∉ ([] : List String))).length ≤ md.stations.length + 1 := by
    calc ((origin :: md.stations).dedup.filter
          (fun x => x ∉ ([] : List String))).length
        ≤ (origin :: md.stations).dedup.length := List.length_filter_le _ _
      _ ≤ (origin :: md.stations).length := (List.dedup_sublist _).length_le
      _ = md.stations.length + 1 := by simp
  exact segGo_master (md.stations.length + 1)
    (bfsInv_init md st origin destination) hinit_len

/-- The matrix of the spec's worked example for C6: no direct `A → C` cell,
but `A → B` and `B → C` available for `S_CHAIR`; nothing for `SNIGDHA`. -/
def c6ExampleMd : MatrixData :=
  { stations := ["A", "B", "C"],
    fareMatrices := fun st a b =>
      if st = "S_CHAIR" ∧ a = "A" ∧ b = "B" then
        some { online := 3, offline := 0, fare := 100, vat_amount := some 10 }
      else if st = "S_CHAIR" ∧ a = "B" ∧ b = "C" then
        some { online := 2, offline := 1, fare := 150, vat_amount := none }
      else none,
    stationDatesFormatted := fun _ => none,
    date := "10-Jun-2025" }

/-- Witness for C6 at the spec's example: with no direct `A → C` edge but
available `A → B` and `B → C` edges, the search returns the 2-segment route
summing both segments' totals (130 + 170 = 300), and returns `null` for the
class with no chain. -/
theorem c6_find_segmented_witness :
    (∃ r, findSegmentedRoutes c6ExampleMd "A" "C" "S_CHAIR" = some r ∧
      r.rtype = "SEGMENTED" ∧ r.seatType = some "S_CHAIR" ∧
      r.segments.length = 2 ∧
      r.totalFare = sumTotals r.segments ∧ r.totalFare = 300 ∧
      ChainSegs c6ExampleMd "S_CHAIR" "A" "C" r.segments) ∧
    findSegmentedRoutes c6ExampleMd "A" "C" "SNIGDHA" = none ∧
    findDirectRoute c6ExampleMd "A" "C" "S_CHAIR" = none := by
  have h := c6_find_segmented c6ExampleMd "A" "C" "S_CHAIR"
  have hv : findSegmentedRoutes c6ExampleMd "A" "C" "S_CHAIR" =
      some { rtype := "SEGMENTED", seatType := some "S_CHAIR",
             segments :=
               [{ from_city := "A", to_city := "B", seatType := "S_CHAIR",
                  base := 100, vat := 10, charge := 20, total := 130,
                  seats := 3, date := "10-Jun-2025" },
                { from_city := "B", to_city := "C", seatType := "S_CHAIR",
                  base := 150, vat := 0, charge := 20, total := 170,
                  seats := 3, date := "10-Jun-2025" }],
             totalFare := 300 } := by decide
  refine ⟨⟨_, hv, (h.2 _ hv).1, (h.2 _ hv).2.1, by decide,
    (h.2 _ hv).2.2.2.1, by decide, (h.2 _ hv).2.2.1⟩, by decide, by decide⟩

end TrainSeatApp
